import Mathlib

/-!
Shallow embedding of the `bibleref` package of julianstephens/canonref
(Go), together with proofs about the claims of its specification.

Strings are modelled as `List Char` (Unicode code points).  The Go code
indexes strings by byte only inside `parseTail`, where the scanned
characters are ASCII digits and `':'`; for those the byte view and the
code-point view coincide, and a non-ASCII character at the checked
position fails the comparison in both views, so the code-point model is
observationally equivalent there.  Go's `int` is modelled as `Int`
together with the 64-bit range check that `strconv.Atoi` performs.
-/

/-- Strings as lists of Unicode code points. -/
abbrev Str := List Char

/-- Convert a Lean string literal to the `Str` model. -/
def str (s : String) : Str := s.toList

/-- The en-dash code point U+2013 (`util.EnDash`). -/
def enDash : Char := Char.ofNat 0x2013

/-- The hyphen (`util.Hyphen`). -/
def hyphenCh : Char := '-'

/-- ASCII apostrophe, written by code point to keep the sources plain. -/
def aposCh : Char := Char.ofNat 39

/-- `unicode.IsSpace` of Go: the White_Space property. -/
def isSpaceGo (c : Char) : Bool :=
  let n := c.toNat
  (9 ≤ n && n ≤ 13) || n == 32 || n == 0x85 || n == 0xA0 || n == 0x1680 ||
  (0x2000 ≤ n && n ≤ 0x200A) || n == 0x2028 || n == 0x2029 || n == 0x202F ||
  n == 0x205F || n == 0x3000

/-- ASCII digit test (`'0' <= c && c <= '9'` in the Go sources). -/
def isDigitCh (c : Char) : Bool := 48 ≤ c.toNat && c.toNat ≤ 57

/-- Numeric value of an ASCII digit. -/
def digitVal (c : Char) : Nat := c.toNat - 48

/-- The ASCII digit character for `d < 10`. -/
def digitChar (d : Nat) : Char := Char.ofNat (48 + d)

/-- ASCII lower-casing, the fragment of Go's `strings.ToLower` relevant
here (every identifier handled by this repository is ASCII). -/
def toLowerGo (c : Char) : Char :=
  if 65 ≤ c.toNat && c.toNat ≤ 90 then Char.ofNat (c.toNat + 32) else c

/-- `pat` occurs at the start of `s`. -/
def leadsWith : Str → Str → Bool
  | [], _ => true
  | _ :: _, [] => false
  | p :: ps, c :: cs => p == c && leadsWith ps cs

/-- `strings.Contains s sub` of Go. -/
def containsSub : Str → Str → Bool
  | [], sub => sub == []
  | c :: rest, sub => leadsWith sub (c :: rest) || containsSub rest sub

/-- Leftmost, non-overlapping replacement, fuel-indexed so that the
definition is structural.  Matches `strings.Replace(s, pat, rep, -1)`
for non-empty `pat` when the fuel is at least `s.length`. -/
def replaceAllAux : Nat → Str → Str → Str → Str
  | 0, s, _, _ => s
  | fuel + 1, s, pat, rep =>
    match s with
    | [] => []
    | c :: rest =>
      if leadsWith pat s then rep ++ replaceAllAux fuel (s.drop pat.length) pat rep
      else c :: replaceAllAux fuel rest pat rep

/-- `strings.ReplaceAll s pat rep` of Go (for non-empty `pat`, the only
use in the sources). -/
def replaceAll (s pat rep : Str) : Str := replaceAllAux s.length s pat rep

/-- Fuel-indexed splitter behind `splitGo`. -/
def splitAux : Nat → Str → Str → Str → List Str
  | 0, s, _, acc => [acc.reverse ++ s]
  | fuel + 1, s, sep, acc =>
    match s with
    | [] => [acc.reverse]
    | c :: rest =>
      if leadsWith sep s then acc.reverse :: splitAux fuel (s.drop sep.length) sep []
      else splitAux fuel rest sep (c :: acc)

/-- `strings.Split s sep` of Go for non-empty `sep`. -/
def splitGo (s sep : Str) : List Str := splitAux (s.length + 1) s sep []

/-- Word accumulator behind `fieldsGo`. -/
def fieldsAux : Str → Str → List Str
  | [], acc => if acc = ([] : Str) then [] else [acc.reverse]
  | c :: rest, acc =>
    if isSpaceGo c then
      if acc = ([] : Str) then fieldsAux rest []
      else acc.reverse :: fieldsAux rest []
    else fieldsAux rest (c :: acc)

/-- `strings.Fields` of Go: split around runs of white space. -/
def fieldsGo (s : Str) : List Str := fieldsAux s []

/-- `strings.TrimSpace` of Go. -/
def trimSpaceGo (s : Str) : Str :=
  ((s.dropWhile isSpaceGo).reverse.dropWhile isSpaceGo).reverse

/-- `strings.Join parts " "` of Go. -/
def joinSp (parts : List Str) : Str := List.intercalate [' '] parts

/-- Fuel-indexed decimal printer behind `natToStr`. -/
def natToStrAux : Nat → Nat → Str
  | 0, _ => []
  | fuel + 1, n =>
    if n < 10 then [digitChar n]
    else natToStrAux fuel (n / 10) ++ [digitChar (n % 10)]

/-- Decimal rendering of a natural number, as `fmt`'s `%d`. -/
def natToStr (n : Nat) : Str := natToStrAux (n + 1) n

/-- Decimal rendering of an integer, as `fmt`'s `%d` / `strconv.Itoa`. -/
def intToStr (n : Int) : Str :=
  if n < 0 then '-' :: natToStr (-n).toNat else natToStr n.toNat

/-- Value of a digit string, most significant digit first. -/
def strToNat (s : Str) : Nat := s.foldl (fun a c => a * 10 + digitVal c) 0

deriving instance DecidableEq for Except

/-- Error kinds (`ErrKind` in the Go sources). -/
inductive ErrKind where
  | KindParse
  | KindUnknownBook
  | KindInvalidBook
  | KindInvalidChapter
  | KindInvalidVerse
  | KindUnsupportedFormat
deriving DecidableEq, Repr

/-- The sentinel errors of the package (`ErrBibleRefParseFailed`, ...). -/
inductive Sentinel where
  | ErrBibleRefParseFailed
  | ErrBibleRefValidationFailed
  | ErrInvalidOSISCode
  | ErrInvalidBook
  | ErrInvalidChapter
  | ErrInvalidVerse
  | ErrUnsupportedFormat
deriving DecidableEq, Repr

/-- Go error values as observed by the callers: either a
`strconv.NumError` (function name, offending numeral, whether the error
is the range error rather than the syntax error) or a `BibleRefError`
with its `Kind`, optional `Message`, sentinel `Err` and `Cause`.  The
`nil` constructor stands for Go's nil error in the `Cause` position. -/
inductive GoError where
  | nil
  | numError (fn : Str) (num : Str) (isRange : Bool)
  | bibleRefError (Kind : ErrKind) (Message : Option Str) (Err : Sentinel)
      (Cause : GoError)
deriving DecidableEq, Repr

/-- `util.VerseRange`. -/
structure VerseRange where
  StartVerse : Int
  EndVerse : Option Int
deriving DecidableEq, Repr

/-- `VerseRange.String`: the number, or `start`–`end` with an en-dash. -/
def VerseRange.render (v : VerseRange) : Str :=
  match v.EndVerse with
  | none => intToStr v.StartVerse
  | some e => intToStr v.StartVerse ++ enDash :: intToStr e

/-- `bibleref.Book`. -/
structure Book where
  OSIS : Str
  Name : Str
  Aliases : List Str
  Testament : Str
  Order : Int
  Chapters : Int
deriving DecidableEq, Repr

/-- `Book.Validate`: `none` means valid, otherwise the returned error. -/
def Book.Validate (b : Book) : Option GoError :=
  if b.OSIS = [] then
    some (.bibleRefError .KindInvalidBook none .ErrInvalidOSISCode .nil)
  else if b.Name = [] then
    some (.bibleRefError .KindInvalidBook (some (str "book name cannot be empty"))
      .ErrInvalidBook .nil)
  else if b.Chapters < 1 then
    some (.bibleRefError .KindInvalidBook
      (some (str "book must have at least one chapter")) .ErrInvalidBook .nil)
  else if b.Order < 1 then
    some (.bibleRefError .KindInvalidBook
      (some (str "book order must be a positive integer")) .ErrInvalidBook .nil)
  else none

/-- `bibleref.Table`: Go maps are modelled extensionally as functions. -/
structure Table where
  ByOsis : Str → Option Book
  ByAlias : Str → Option Str

/-- Store into the `ByOsis` map. -/
def insertOsis (m : Str → Option Book) (k : Str) (v : Book) : Str → Option Book :=
  fun q => if q = k then some v else m q

/-- Store into the `ByAlias` map. -/
def insertAlias (m : Str → Option Str) (k : Str) (v : Str) : Str → Option Str :=
  fun q => if q = k then some v else m q

/-- The `int64` range gate of `strconv.ParseInt`. -/
def atoiCheck (s : Str) (v : Int) : Except GoError Int :=
  if -(2 ^ 63) ≤ v ∧ v ≤ 2 ^ 63 - 1 then .ok v
  else .error (.numError (str "Atoi") s true)

/-- `strconv.Atoi` on a 64-bit platform: an optional sign, a non-empty
run of ASCII digits, and the `int64` range check of `ParseInt`. -/
def Atoi (s : Str) : Except GoError Int :=
  match s with
  | [] => .error (.numError (str "Atoi") s false)
  | c :: rest =>
    let ds := if c = '-' ∨ c = '+' then rest else c :: rest
    if ds ≠ [] ∧ ds.all isDigitCh then
      atoiCheck (c :: rest) (if c = '-' then -(strToNat ds : Int) else (strToNat ds : Int))
    else .error (.numError (str "Atoi") (c :: rest) false)

/-- `NormalizeAlias` (rbref/bibleref sources): trim, lower-case, strip
periods, en-dash to hyphen, collapse the Roman-numeral prefixes in the
order `"iii "`, `"ii "`, `"i "`, and straighten curly quotes. -/
def NormalizeAlias (s : Str) : Str :=
  let r := trimSpaceGo s
  let r := r.map toLowerGo
  let r := replaceAll r (str ".") []
  let r := replaceAll r [enDash] [hyphenCh]
  let r := replaceAll r (str "iii ") (str "3 ")
  let r := replaceAll r (str "ii ") (str "2 ")
  let r := replaceAll r (str "i ") (str "1 ")
  let r := replaceAll r [Char.ofNat 0x2019] [aposCh]
  let r := replaceAll r [Char.ofNat 0x2018] [aposCh]
  let r := replaceAll r [Char.ofNat 0x201C] ['"']
  let r := replaceAll r [Char.ofNat 0x201D] ['"']
  r

/-- `NormalizeVerseRange`: trim, hyphen to en-dash, strip spaces. -/
def NormalizeVerseRange (s : Str) : Str :=
  let r := trimSpaceGo s
  let r := replaceAll r [hyphenCh] [enDash]
  let r := replaceAll r [' '] []
  r

/-- `NewTable`'s per-book insertion: record the book under its OSIS,
register every normalized alias, then the normalized OSIS itself unless
some entry already claimed that key. -/
def addBook (tbl : Table) (b : Book) : Table :=
  let byOsis := insertOsis tbl.ByOsis b.OSIS b
  let byAlias := b.Aliases.foldl (fun m a => insertAlias m (NormalizeAlias a) b.OSIS) tbl.ByAlias
  let byAlias :=
    if (byAlias (NormalizeAlias b.OSIS)).isSome then byAlias
    else insertAlias byAlias (NormalizeAlias b.OSIS) b.OSIS
  ⟨byOsis, byAlias⟩

/-- The loop of `NewTable`. -/
def newTableAux : List Book → Table → Except GoError Table
  | [], tbl => .ok tbl
  | b :: rest, tbl =>
    match b.Validate with
    | some e => .error e
    | none => newTableAux rest (addBook tbl b)

/-- `bibleref.NewTable`. -/
def NewTable (books : List Book) : Except GoError Table :=
  newTableAux books ⟨fun _ => none, fun _ => none⟩

/-- Project the table out of a successful `NewTable` result. -/
def getTable (e : Except GoError Table) : Table :=
  match e with
  | .ok t => t
  | .error _ => ⟨fun _ => none, fun _ => none⟩

/-- `bibleref.BibleRef`. -/
structure BibleRef where
  OSIS : Str
  Chapter : Int
  Verse : Option VerseRange
deriving DecidableEq, Repr

/-- `BibleRef.String`: `"OSIS Chapter"` or `"OSIS Chapter:Verse"`. -/
def BibleRef.render (r : BibleRef) : Str :=
  match r.Verse with
  | none => r.OSIS ++ ' ' :: intToStr r.Chapter
  | some v => r.OSIS ++ ' ' :: intToStr r.Chapter ++ ':' :: v.render

/-- The `bibleref.Format` enumeration. -/
inductive FormatMode where
  | FormatOSIS
  | FormatHuman
  | FormatCanonical
deriving DecidableEq, Repr

/-- `BibleRef.Format` (the `Human` branch reads `Name` of the zero-value
book when the OSIS code is absent, like Go's map read). -/
def BibleRef.renderFormat (r : BibleRef) (f : FormatMode) (tbl : Table) : Str :=
  match f with
  | .FormatOSIS =>
    match r.Verse with
    | none => r.OSIS ++ '.' :: intToStr r.Chapter
    | some v => r.OSIS ++ '.' :: intToStr r.Chapter ++ '.' :: v.render
  | .FormatHuman =>
    let book := (tbl.ByOsis r.OSIS).getD ⟨[], [], [], [], 0, 0⟩
    match r.Verse with
    | none => book.Name ++ ' ' :: intToStr r.Chapter
    | some v => book.Name ++ ' ' :: intToStr r.Chapter ++ ':' :: v.render
  | .FormatCanonical =>
    match r.Verse with
    | none => r.OSIS ++ ' ' :: intToStr r.Chapter
    | some v => r.OSIS ++ ' ' :: intToStr r.Chapter ++ ':' :: v.render

/-- `BibleRef.Validate`: `none` means valid. -/
def BibleRef.Validate (r : BibleRef) (tbl : Table) : Option GoError :=
  match tbl.ByOsis r.OSIS with
  | none =>
    some (.bibleRefError .KindUnknownBook
      (some (str "unknown OSIS code: " ++ r.OSIS)) .ErrInvalidOSISCode .nil)
  | some book =>
    if r.Chapter < 1 ∨ book.Chapters < r.Chapter then
      some (.bibleRefError .KindInvalidChapter
        (some (str "invalid chapter number " ++ intToStr r.Chapter ++
          str " for book " ++ book.Name)) .ErrInvalidChapter .nil)
    else
      match r.Verse with
      | none => none
      | some v =>
        if v.StartVerse < 1 then
          some (.bibleRefError .KindInvalidVerse
            (some (str "start verse must be a positive integer, got " ++
              intToStr v.StartVerse)) .ErrInvalidVerse .nil)
        else
          match v.EndVerse with
          | none => none
          | some e =>
            if e < v.StartVerse then
              some (.bibleRefError .KindInvalidVerse
                (some (str "end verse must be greater than or equal to start verse, got start: "
                  ++ intToStr v.StartVerse ++ str ", end: " ++ intToStr e))
                .ErrInvalidVerse .nil)
            else none

/-- `parseTail`: require a leading ASCII digit, scan the chapter digits,
then either the whole tail was digits (chapter-only) or a `':'` must
follow with a non-empty verse part, which is normalized in place. -/
def parseTail (tail : Str) : Except GoError Str :=
  match tail with
  | [] =>
    .error (.bibleRefError .KindParse (some (str "tail cannot be empty"))
      .ErrBibleRefParseFailed .nil)
  | c :: _ =>
    if ¬ isDigitCh c then
      .error (.bibleRefError .KindInvalidChapter
        (some (str "tail must start with a digit, got: " ++ tail))
        .ErrInvalidChapter .nil)
    else
      let digits := tail.takeWhile isDigitCh
      match tail.dropWhile isDigitCh with
      | [] => .ok tail
      | d :: rest =>
        if d ≠ ':' then
          .error (.bibleRefError .KindParse
            (some (str "expected " ++ [aposCh, ':', aposCh] ++
              str " after chapter, got: " ++ [d] ++ str " at position " ++
              natToStr digits.length))
            .ErrBibleRefParseFailed .nil)
        else if rest = [] then
          .error (.bibleRefError .KindInvalidVerse
            (some (str "verse part cannot be empty after " ++ [aposCh, ':', aposCh]))
            .ErrInvalidVerse .nil)
        else .ok (digits ++ ':' :: NormalizeVerseRange rest)

/-- `parseVerseRange`. -/
def parseVerseRange (s : Str) (parts : List Str) : Except GoError VerseRange :=
  match parts with
  | [p0, p1] =>
    match Atoi p0 with
    | .error e =>
      .error (.bibleRefError .KindInvalidVerse
        (some (str "invalid start verse: " ++ p0)) .ErrInvalidVerse e)
    | .ok startVerse =>
      match Atoi p1 with
      | .error e =>
        .error (.bibleRefError .KindInvalidVerse
          (some (str "invalid end verse: " ++ p1)) .ErrInvalidVerse e)
      | .ok endVerse => .ok ⟨startVerse, some endVerse⟩
  | _ =>
    .error (.bibleRefError .KindParse
      (some (str "invalid verse range: " ++ s)) .ErrBibleRefParseFailed .nil)

/-- `parseChapterVerse`. -/
def parseChapterVerse (s : Str) : Except GoError (Int × Option VerseRange) :=
  let parts := splitGo s [':']
  if parts = [] then
    .error (.bibleRefError .KindParse
      (some (str "chapter and verse string must contain at least a chapter"))
      .ErrBibleRefParseFailed .nil)
  else if 2 < parts.length then
    .error (.bibleRefError .KindParse
      (some (str "chapter and verse string must contain at most one colon"))
      .ErrBibleRefParseFailed .nil)
  else
    let chapterStr := parts.headD []
    match Atoi chapterStr with
    | .error e =>
      .error (.bibleRefError .KindInvalidChapter
        (some (str "invalid chapter: " ++ chapterStr)) .ErrInvalidChapter e)
    | .ok chapter =>
      if parts.length = 1 then .ok (chapter, none)
      else
        let verseStr := NormalizeVerseRange (parts.getLastD [])
        if containsSub verseStr [enDash] then
          match parseVerseRange verseStr (splitGo verseStr [enDash]) with
          | .error e => .error e
          | .ok vr => .ok (chapter, some vr)
        else
          match Atoi verseStr with
          | .error e =>
            .error (.bibleRefError .KindInvalidVerse
              (some (str "invalid verse: " ++ verseStr)) .ErrInvalidVerse e)
          | .ok startVerse => .ok (chapter, some ⟨startVerse, none⟩)

/-- The two-step head resolution of `parseRefString`: the alias map
first, then the normalized head itself as a literal OSIS key. -/
def resolveBook (tbl : Table) (bookStr : Str) : Option Book :=
  match tbl.ByAlias bookStr with
  | some osis => tbl.ByOsis osis
  | none => tbl.ByOsis bookStr

/-- `parseRefString`. -/
def parseRefString (s : Str) (tbl : Table) : Except GoError BibleRef :=
  let t := trimSpaceGo s
  if t = [] then
    .error (.bibleRefError .KindParse
      (some (str "reference string cannot be empty")) .ErrBibleRefParseFailed .nil)
  else
    let fs := fieldsGo t
    if fs.length < 2 then
      .error (.bibleRefError .KindParse
        (some (str "reference string must contain at least a book and a chapter"))
        .ErrBibleRefParseFailed .nil)
    else
      let bookPart := joinSp fs.dropLast
      let bookStr := NormalizeAlias bookPart
      match parseTail (fs.getLastD []) with
      | .error e => .error e
      | .ok chapterVerseStr =>
        let bookOsis := (tbl.ByAlias bookStr).getD bookStr
        match tbl.ByOsis bookOsis with
        | none =>
          .error (.bibleRefError .KindUnknownBook
            (some (str "unknown book: " ++ bookStr)) .ErrInvalidOSISCode .nil)
        | some book =>
          match parseChapterVerse chapterVerseStr with
          | .error e => .error e
          | .ok (chapter, verseRange) =>
            match verseRange with
            | some vr =>
              if vr.StartVerse < 1 then
                .error (.bibleRefError .KindInvalidVerse
                  (some (str "invalid verse number: " ++ intToStr vr.StartVerse))
                  .ErrInvalidVerse .nil)
              else
                let ref : BibleRef := ⟨book.OSIS, chapter, some vr⟩
                match ref.Validate tbl with
                | some e => .error e
                | none => .ok ref
            | none =>
              let ref : BibleRef := ⟨book.OSIS, chapter, none⟩
              match ref.Validate tbl with
              | some e => .error e
              | none => .ok ref

/-- `doParse`: parse, then validate. -/
def doParse (s : Str) (tbl : Table) : Except GoError BibleRef :=
  match parseRefString s tbl with
  | .error e => .error e
  | .ok ref =>
    match ref.Validate tbl with
    | some e => .error e
    | none => .ok ref

/-- `bibleref.Parse`: `doParse` with the error wrapped in a
`KindParse` `BibleRefError` whose `Cause` is the inner error. -/
def Parse (s : Str) (tbl : Table) : Except GoError BibleRef :=
  match doParse s tbl with
  | .error e =>
    .error (.bibleRefError .KindParse
      (some (str "failed to parse reference string: " ++ s))
      .ErrBibleRefParseFailed e)
  | .ok r => .ok r

/-- The Proverbs record of the repository's test data. -/
def bookProv : Book :=
  ⟨str "Prov", str "Proverbs", [str "proverbs", str "prov", str "pro"], str "OT", 20, 31⟩

/-- A one-book registry used as a concrete witness table. -/
def provTbl : Table := getTable (NewTable [bookProv])

/-- Two books whose alias sets collide after normalization: book "B"
claims the normalized OSIS key "a" of book "A". -/
def booksC1 : List Book :=
  [⟨str "A", str "BookA", [str "q"], str "OT", 1, 5⟩,
   ⟨str "B", str "BookB", [str "a"], str "OT", 2, 5⟩]

/-- Registry built from `booksC1`. -/
def tblC1 : Table := getTable (NewTable booksC1)

/-- The Proverbs record of the duplicate-alias test data. -/
def bookProvC2 : Book :=
  ⟨str "Prov", str "Proverbs", [str "proverbs", str "prov"], str "OT", 20, 31⟩

/-- A Matthew record whose alias list re-registers `"prov"`. -/
def bookMattC2 : Book :=
  ⟨str "Matt", str "Matthew", [str "matthew", str "prov"], str "NT", 40, 28⟩

/-- The duplicate-alias book list of the repository's test suite. -/
def booksC2 : List Book := [bookProvC2, bookMattC2]

/-- Registry built from `booksC2`: the duplicate alias is silently
overwritten. -/
def tblC2 : Table := getTable (NewTable booksC2)

/-- A single book resolvable from the head "Book". -/
def bookBook : Book := ⟨str "Book", str "The Book", [], str "OT", 1, 5⟩

/-- Registry built from `[bookBook]`. -/
def bookTbl : Table := getTable (NewTable [bookBook])

/-- A book whose `Order` field is below 1 (otherwise valid). -/
def bookBadOrder : Book := ⟨str "X", str "Xbook", [], str "OT", 0, 5⟩

/-- A chapter token whose value exceeds the 64-bit integer range. -/
def bigTail : Str := str "9999999999999999999"

/-- A 2 Kings record aliased "ii kings". -/
def book2Kgs : Book := ⟨str "2Kgs", str "2 Kings", [str "ii kings"], str "OT", 12, 25⟩

/-- Registry built from `[book2Kgs]`. -/
def kgsTbl : Table := getTable (NewTable [book2Kgs])

section NumeralLemmas

lemma digitChar_toNat {d : Nat} (h : d < 10) : (digitChar d).toNat = 48 + d := by
  interval_cases d <;> decide

lemma isDigitCh_digitChar {d : Nat} (h : d < 10) : isDigitCh (digitChar d) = true := by
  interval_cases d <;> decide

lemma digitVal_digitChar {d : Nat} (h : d < 10) : digitVal (digitChar d) = d := by
  interval_cases d <;> decide

lemma natToStrAux_digits : ∀ fuel n c, c ∈ natToStrAux fuel n → isDigitCh c = true := by
  intro fuel
  induction fuel with
  | zero => intro n c hc; simp [natToStrAux] at hc
  | succ f ih =>
      intro n c hc
      by_cases h : n < 10
      · simp [natToStrAux, h] at hc
        subst hc; exact isDigitCh_digitChar h
      · simp [natToStrAux, h, List.mem_append] at hc
        rcases hc with hc | hc
        · exact ih _ _ hc
        · subst hc; exact isDigitCh_digitChar (Nat.mod_lt _ (by omega))

lemma natToStrAux_foldl : ∀ fuel n, n < 10 ^ fuel → ∀ a,
    List.foldl (fun x c => x * 10 + digitVal c) a (natToStrAux fuel n)
      = a * 10 ^ (natToStrAux fuel n).length + n := by
  intro fuel
  induction fuel with
  | zero =>
      intro n hn a
      have : n = 0 := by simpa using hn
      subst this; simp [natToStrAux]
  | succ f ih =>
      intro n hn a
      by_cases h : n < 10
      · simp [natToStrAux, h, digitVal_digitChar h]
      · have hdiv : n / 10 < 10 ^ f := by
          rw [Nat.div_lt_iff_lt_mul (by omega)]
          calc n < 10 ^ (f + 1) := hn
            _ = 10 ^ f * 10 := by ring
        have hmod : n / 10 * 10 + n % 10 = n := by omega
        simp only [natToStrAux, if_neg h, List.foldl_append, List.length_append,
          List.foldl_cons, List.foldl_nil, List.length_cons, List.length_nil]
        rw [ih _ hdiv a, digitVal_digitChar (Nat.mod_lt _ (by omega))]
        have key : ∀ L : Nat,
            (a * 10 ^ L + n / 10) * 10 + n % 10
              = a * 10 ^ (L + 1) + (n / 10 * 10 + n % 10) := by
          intro L; ring
        rw [key, hmod]

lemma strToNat_natToStr (n : Nat) : strToNat (natToStr n) = n := by
  have hn : n < 10 ^ (n + 1) := by
    calc n < 10 ^ n := Nat.lt_pow_self (by omega) n
      _ ≤ 10 ^ (n + 1) := Nat.pow_le_pow_right (by omega) (Nat.le_succ n)
  have := natToStrAux_foldl (n + 1) n hn 0
  simpa [strToNat, natToStr] using this

lemma natToStr_digits {n : Nat} {c : Char} (hc : c ∈ natToStr n) : isDigitCh c = true :=
  natToStrAux_digits _ _ _ hc

lemma natToStr_ne_nil (n : Nat) : natToStr n ≠ [] := by
  unfold natToStr natToStrAux
  by_cases h : n < 10 <;> simp [h]

lemma exists_cons_natToStr (n : Nat) :
    ∃ c t, natToStr n = c :: t ∧ isDigitCh c = true := by
  cases h : natToStr n with
  | nil => exact absurd h (natToStr_ne_nil n)
  | cons c t =>
      exact ⟨c, t, rfl, natToStr_digits (by rw [h]; exact List.mem_cons_self c t)⟩

lemma Atoi_all_digits {s : Str} (hne : s ≠ []) (hall : s.all isDigitCh = true)
    (hsign : ∀ c t, s = c :: t → c ≠ '-' ∧ c ≠ '+')
    (hbound : (strToNat s : Int) ≤ 2 ^ 63 - 1) :
    Atoi s = .ok (strToNat s : Int) := by
  cases s with
  | nil => exact absurd rfl hne
  | cons c t =>
      obtain ⟨hcm, hcp⟩ := hsign c t rfl
      have h1 : ¬(c = '-' ∨ c = '+') := by rintro (rfl | rfl) <;> simp at hcm hcp
      simp only [Atoi, if_neg h1]
      rw [if_pos ⟨hne, hall⟩, if_neg hcm, atoiCheck, if_pos]
      exact ⟨by omega, hbound⟩

lemma Atoi_natToStr {n : Nat} (h : (n : Int) ≤ 2 ^ 63 - 1) :
    Atoi (natToStr n) = .ok (n : Int) := by
  obtain ⟨c, t, heq, hc⟩ := exists_cons_natToStr n
  have hval : strToNat (natToStr n) = n := strToNat_natToStr n
  rw [Atoi_all_digits (natToStr_ne_nil n)
    (by rw [List.all_eq_true]; exact fun x hx => natToStr_digits hx)
    (by
      intro c' t' he
      have hc' : isDigitCh c' = true := by
        apply natToStr_digits (n := n); rw [he]; exact List.mem_cons_self c' t'
      constructor <;> rintro rfl <;> simp [isDigitCh] at hc')
    (by rw [hval]; exact h)]
  rw [hval]

lemma atoiCheck_ok {s : Str} {x v : Int} (h : atoiCheck s x = .ok v) :
    -(2 ^ 63) ≤ v ∧ v ≤ 2 ^ 63 - 1 := by
  unfold atoiCheck at h
  split at h
  · rename_i hrange
    simp only [Except.ok.injEq] at h
    subst h; exact hrange
  · simp at h

lemma Atoi_ok_bounds {s : Str} {v : Int} (h : Atoi s = .ok v) :
    -(2 ^ 63) ≤ v ∧ v ≤ 2 ^ 63 - 1 := by
  cases s with
  | nil => simp [Atoi] at h
  | cons c t =>
      simp only [Atoi] at h
      split at h <;> split at h <;>
        first
          | exact atoiCheck_ok h
          | simp at h

end NumeralLemmas

section StringLemmas

lemma leadsWith_nil (s : Str) : leadsWith [] s = true := by cases s <;> rfl

lemma leadsWith_single {c d : Char} {t : Str} : leadsWith [c] (d :: t) = (c == d) := by
  simp [leadsWith, leadsWith_nil]

lemma containsSub_single : ∀ (s : Str) (c : Char), containsSub s [c] = true ↔ c ∈ s := by
  intro s c
  induction s with
  | nil => simp [containsSub]
  | cons d t ih =>
      simp [containsSub, leadsWith_single, ih]

lemma splitAux_nil_str (fuel : Nat) (sep acc : Str) :
    splitAux (fuel + 1) [] sep acc = [acc.reverse] := rfl

lemma splitAux_cons (fuel : Nat) (d : Char) (t sep acc : Str) :
    splitAux (fuel + 1) (d :: t) sep acc =
      if leadsWith sep (d :: t) then
        acc.reverse :: splitAux fuel ((d :: t).drop sep.length) sep []
      else splitAux fuel t sep (d :: acc) := rfl

lemma not_leadsWith_single {c d : Char} {t : Str} (h : c ≠ d) :
    ¬ leadsWith [c] (d :: t) = true := by
  rw [leadsWith_single]; simpa using h

lemma splitAux_no_sep {c : Char} :
    ∀ (fuel : Nat) (s acc : Str), c ∉ s →
      splitAux fuel s [c] acc = [acc.reverse ++ s] := by
  intro fuel
  induction fuel with
  | zero => intro s acc _; rfl
  | succ f ih =>
      intro s acc hc
      cases s with
      | nil => simp [splitAux_nil_str]
      | cons d t =>
          have hcd : c ≠ d := fun h => hc (h ▸ List.mem_cons_self _ _)
          rw [splitAux_cons, if_neg (not_leadsWith_single hcd),
            ih t (d :: acc) (fun hm => hc (List.mem_cons_of_mem _ hm))]
          simp

lemma splitGo_no_sep {c : Char} {s : Str} (h : c ∉ s) : splitGo s [c] = [s] := by
  simpa using splitAux_no_sep (s.length + 1) s [] h

lemma splitAux_fuel_irrel {c : Char} :
    ∀ (fuel : Nat) (s acc : Str), s.length < fuel →
      splitAux fuel s [c] acc = splitAux (s.length + 1) s [c] acc := by
  intro fuel
  induction fuel using Nat.strong_induction_on with
  | _ fuel ih =>
      intro s acc hlen
      cases fuel with
      | zero => omega
      | succ f =>
          cases s with
          | nil => rfl
          | cons d t =>
              have ht : t.length < f := by simpa using hlen
              rw [splitAux_cons, List.length_cons, splitAux_cons]
              by_cases hlead : leadsWith [c] (d :: t) = true
              · rw [if_pos hlead, if_pos hlead]
                simp only [List.length_cons, List.length_nil, List.drop_succ_cons,
                  List.drop_zero]
                rw [ih f (Nat.lt_succ_self f) t [] ht]
              · rw [if_neg hlead, if_neg hlead]
                simp only [List.length_cons]
                rw [ih f (Nat.lt_succ_self f) t (d :: acc) ht]

lemma splitAux_found {c : Char} :
    ∀ (a b acc : Str) (fuel : Nat), (a ++ c :: b).length < fuel → c ∉ a →
      splitAux fuel (a ++ c :: b) [c] acc
        = (acc.reverse ++ a) :: splitAux (b.length + 1) b [c] [] := by
  intro a
  induction a with
  | nil =>
      intro b acc fuel hfuel _
      cases fuel with
      | zero => simp at hfuel
      | succ f =>
          have hlead : leadsWith [c] (c :: b) = true := by
            rw [leadsWith_single]; simp
          have hb : b.length < f := by simpa using hfuel
          rw [List.nil_append, splitAux_cons, if_pos hlead]
          simp only [List.length_cons, List.length_nil, List.drop_succ_cons,
            List.drop_zero, List.append_nil, List.reverse_nil]
          rw [splitAux_fuel_irrel f b [] hb]
  | cons d a' ih =>
      intro b acc fuel hfuel hc
      cases fuel with
      | zero => simp at hfuel
      | succ f =>
          have hcd : c ≠ d := fun h => hc (h ▸ List.mem_cons_self _ _)
          rw [List.cons_append, splitAux_cons, if_neg (not_leadsWith_single hcd),
            ih b (d :: acc) f (by simpa using Nat.lt_of_succ_lt_succ hfuel)
              (fun hm => hc (List.mem_cons_of_mem _ hm))]
          simp

lemma splitGo_found {c : Char} {a b : Str} (h : c ∉ a) :
    splitGo (a ++ c :: b) [c] = a :: splitGo b [c] := by
  rw [splitGo, splitAux_found a b [] ((a ++ c :: b).length + 1) (Nat.lt_succ_self _) h]
  simp [splitGo]

lemma replaceAllAux_cons (fuel : Nat) (d : Char) (t pat rep : Str) :
    replaceAllAux (fuel + 1) (d :: t) pat rep =
      if leadsWith pat (d :: t) then
        rep ++ replaceAllAux fuel ((d :: t).drop pat.length) pat rep
      else d :: replaceAllAux fuel t pat rep := rfl

lemma replaceAllAux_no_occ {c : Char} {rep : Str} :
    ∀ (fuel : Nat) (s : Str), c ∉ s → replaceAllAux fuel s [c] rep = s := by
  intro fuel
  induction fuel with
  | zero => intro s _; rfl
  | succ f ih =>
      intro s hc
      cases s with
      | nil => rfl
      | cons d t =>
          have hcd : c ≠ d := fun h => hc (h ▸ List.mem_cons_self _ _)
          rw [replaceAllAux_cons, if_neg (not_leadsWith_single hcd),
            ih t (fun hm => hc (List.mem_cons_of_mem _ hm))]

lemma replaceAll_no_occ {c : Char} {rep s : Str} (h : c ∉ s) :
    replaceAll s [c] rep = s :=
  replaceAllAux_no_occ s.length s h

lemma takeWhile_append_of_all {p : Char → Bool} :
    ∀ (a b : Str), (∀ x ∈ a, p x = true) → (∀ d t, b = d :: t → p d = false) →
      (a ++ b).takeWhile p = a := by
  intro a
  induction a with
  | nil =>
      intro b _ hb
      cases b with
      | nil => rfl
      | cons d t => simp [List.takeWhile_cons, hb d t rfl]
  | cons x a' ih =>
      intro b ha hb
      have hx : p x = true := ha x (List.mem_cons_self _ _)
      simp [List.takeWhile_cons, hx,
        ih b (fun y hy => ha y (List.mem_cons_of_mem _ hy)) hb]

lemma dropWhile_append_of_all {p : Char → Bool} :
    ∀ (a b : Str), (∀ x ∈ a, p x = true) → (∀ d t, b = d :: t → p d = false) →
      (a ++ b).dropWhile p = b := by
  intro a
  induction a with
  | nil =>
      intro b _ hb
      cases b with
      | nil => rfl
      | cons d t => simp [List.dropWhile_cons, hb d t rfl]
  | cons x a' ih =>
      intro b ha hb
      have hx : p x = true := ha x (List.mem_cons_self _ _)
      simp [List.dropWhile_cons, hx,
        ih b (fun y hy => ha y (List.mem_cons_of_mem _ hy)) hb]

lemma dropWhile_of_head_false {p : Char → Bool} :
    ∀ (s : Str), (∀ d t, s = d :: t → p d = false) → s.dropWhile p = s := by
  intro s hs
  cases s with
  | nil => rfl
  | cons d t => simp [List.dropWhile_cons, hs d t rfl]

lemma trimSpaceGo_of_ends {s : Str}
    (hhead : ∀ d t, s = d :: t → isSpaceGo d = false)
    (hlast : ∀ d t, s.reverse = d :: t → isSpaceGo d = false) :
    trimSpaceGo s = s := by
  unfold trimSpaceGo
  rw [dropWhile_of_head_false s hhead, dropWhile_of_head_false s.reverse hlast,
    List.reverse_reverse]

lemma reverse_head {b : Str} (hb : b ≠ []) :
    ∃ y ys, b.reverse = y :: ys ∧ y ∈ b := by
  cases hrev : b.reverse with
  | nil => exact absurd (by simpa using hrev) hb
  | cons y ys =>
      refine ⟨y, ys, rfl, ?_⟩
      have hy : y ∈ b.reverse := by rw [hrev]; exact List.mem_cons_self _ _
      simpa using hy

lemma fieldsAux_cons (c : Char) (rest acc : Str) :
    fieldsAux (c :: rest) acc =
      if isSpaceGo c then
        if acc = ([] : Str) then fieldsAux rest [] else acc.reverse :: fieldsAux rest []
      else fieldsAux rest (c :: acc) := rfl

lemma fieldsAux_nonspace_word :
    ∀ (a : Str), (∀ x ∈ a, isSpaceGo x = false) →
      ∀ (s acc : Str), fieldsAux (a ++ s) acc = fieldsAux s (a.reverse ++ acc) := by
  intro a
  induction a with
  | nil => intro _ s acc; simp
  | cons x a' ih =>
      intro ha s acc
      have hx : isSpaceGo x = false := ha x (List.mem_cons_self _ _)
      rw [List.cons_append, fieldsAux_cons, if_neg (by simp [hx]),
        ih (fun y hy => ha y (List.mem_cons_of_mem _ hy)) s (x :: acc)]
      simp

lemma fieldsAux_word {b : Str} (hb : b ≠ []) (hbn : ∀ x ∈ b, isSpaceGo x = false) :
    fieldsAux b [] = [b] := by
  have h := fieldsAux_nonspace_word b hbn [] []
  rw [List.append_nil] at h
  rw [h]
  have hrev : (b.reverse ++ [] : Str) ≠ [] := by simpa using hb
  simp only [fieldsAux, List.append_nil]
  rw [if_neg (by simpa using hb)]
  simp

lemma fieldsGo_single {b : Str} (hb : b ≠ []) (hbn : ∀ x ∈ b, isSpaceGo x = false) :
    fieldsGo b = [b] := fieldsAux_word hb hbn

lemma fieldsGo_pair {a b : Str} (ha : a ≠ []) (hb : b ≠ [])
    (han : ∀ x ∈ a, isSpaceGo x = false) (hbn : ∀ x ∈ b, isSpaceGo x = false) :
    fieldsGo (a ++ ' ' :: b) = [a, b] := by
  unfold fieldsGo
  rw [fieldsAux_nonspace_word a han (' ' :: b) [], fieldsAux_cons,
    if_pos (by decide), List.append_nil]
  rw [if_neg (by simpa using ha)]
  rw [fieldsAux_word hb hbn]
  simp

lemma joinSp_single (a : Str) : joinSp [a] = a := by
  simp [joinSp, List.intercalate]

lemma isDigit_not_space {c : Char} (h : isDigitCh c = true) : isSpaceGo c = false := by
  simp only [isDigitCh, Bool.and_eq_true, decide_eq_true_eq] at h
  simp only [isSpaceGo, Bool.or_eq_false_iff, Bool.and_eq_false_iff, beq_eq_false_iff_ne,
    ne_eq, decide_eq_false_iff_not]
  omega

lemma isDigit_ne_special {c : Char} (h : isDigitCh c = true) :
    c ≠ ':' ∧ c ≠ enDash ∧ c ≠ hyphenCh ∧ c ≠ ' ' := by
  simp only [isDigitCh, Bool.and_eq_true, decide_eq_true_eq] at h
  refine ⟨?_, ?_, ?_, ?_⟩ <;> (rintro rfl; revert h; decide)

end StringLemmas

section TableLemmas

/-- The keys a book contributes to `ByAlias`: its normalized aliases and
its normalized OSIS code. -/
def normKeys (b : Book) : List Str := b.Aliases.map NormalizeAlias ++ [NormalizeAlias b.OSIS]

lemma insertAlias_self {m : Str → Option Str} {key v : Str} :
    insertAlias m key v key = some v := by
  show (if key = key then some v else m key) = some v
  simp

lemma insertAlias_other {m : Str → Option Str} {key v k : Str} (h : ¬ k = key) :
    insertAlias m key v k = m k := by
  show (if k = key then some v else m k) = m k
  exact if_neg h

lemma insertAlias_isSome {m : Str → Option Str} {key v k : Str}
    (h : (m k).isSome) : ((insertAlias m key v) k).isSome := by
  show (if k = key then some v else m k).isSome = true
  split <;> simp [h]

lemma aliasFold_stable {osis : Str} :
    ∀ (l : List Str) (m : Str → Option Str) (k : Str), m k = some osis →
      (l.foldl (fun m a => insertAlias m (NormalizeAlias a) osis) m) k = some osis := by
  intro l
  induction l with
  | nil => intro m k h; exact h
  | cons x xs ih =>
      intro m k h
      refine ih _ _ ?_
      show (if k = NormalizeAlias x then some osis else m k) = some osis
      split <;> simp [h]

lemma aliasFold_mem {osis : Str} :
    ∀ (l : List Str) (m : Str → Option Str) (a : Str), a ∈ l →
      (l.foldl (fun m a => insertAlias m (NormalizeAlias a) osis) m) (NormalizeAlias a)
        = some osis := by
  intro l
  induction l with
  | nil => intro m a h; simp at h
  | cons x xs ih =>
      intro m a ha
      rcases List.mem_cons.mp ha with rfl | ha'
      · exact aliasFold_stable xs _ _ insertAlias_self
      · exact ih _ _ ha'

lemma aliasFold_cases {osis : Str} :
    ∀ (l : List Str) (m : Str → Option Str) (k : Str) (v : Str),
      (l.foldl (fun m a => insertAlias m (NormalizeAlias a) osis) m) k = some v →
      v = osis ∨ m k = some v := by
  intro l
  induction l with
  | nil => intro m k v h; exact Or.inr h
  | cons x xs ih =>
      intro m k v h
      rcases ih _ _ _ h with hv | hm
      · exact Or.inl hv
      · have hm' : (if k = NormalizeAlias x then some osis else m k) = some v := hm
        split at hm'
        · exact Or.inl (by simpa using hm'.symm)
        · exact Or.inr hm'

lemma aliasFold_untouched {osis : Str} :
    ∀ (l : List Str) (m : Str → Option Str) (k : Str), k ∉ l.map NormalizeAlias →
      (l.foldl (fun m a => insertAlias m (NormalizeAlias a) osis) m) k = m k := by
  intro l
  induction l with
  | nil => intro m k _; rfl
  | cons x xs ih =>
      intro m k hk
      simp only [List.map_cons, List.mem_cons, not_or] at hk
      rw [List.foldl_cons, ih _ _ hk.2]
      exact insertAlias_other hk.1

lemma aliasFold_isSome {osis : Str} :
    ∀ (l : List Str) (m : Str → Option Str) (k : Str), (m k).isSome →
      ((l.foldl (fun m a => insertAlias m (NormalizeAlias a) osis) m) k).isSome := by
  intro l
  induction l with
  | nil => intro m k h; exact h
  | cons x xs ih =>
      intro m k h
      exact ih _ _ (insertAlias_isSome h)

lemma addBook_alias_of_mem {tbl : Table} {b : Book} {a : Str} (ha : a ∈ b.Aliases) :
    (addBook tbl b).ByAlias (NormalizeAlias a) = some b.OSIS := by
  unfold addBook
  simp only []
  have hm := @aliasFold_mem b.OSIS b.Aliases tbl.ByAlias a ha
  split
  · exact hm
  · by_cases hk : NormalizeAlias a = NormalizeAlias b.OSIS
    · rw [hk]; exact insertAlias_self
    · rw [insertAlias_other hk]; exact hm

lemma addBook_alias_own {tbl : Table} {b : Book}
    (h0 : tbl.ByAlias (NormalizeAlias b.OSIS) = none) :
    (addBook tbl b).ByAlias (NormalizeAlias b.OSIS) = some b.OSIS := by
  unfold addBook
  simp only []
  cases hm : (b.Aliases.foldl (fun m a => insertAlias m (NormalizeAlias a) b.OSIS)
      tbl.ByAlias) (NormalizeAlias b.OSIS) with
  | none => rw [if_neg (by simp [hm])]; exact insertAlias_self
  | some v =>
      rcases aliasFold_cases _ _ _ _ hm with rfl | hcontra
      · rw [if_pos (by simp [hm])]; exact hm
      · rw [h0] at hcontra; cases hcontra

lemma addBook_alias_isSome_own {tbl : Table} {b : Book} :
    ((addBook tbl b).ByAlias (NormalizeAlias b.OSIS)).isSome := by
  unfold addBook
  simp only []
  split
  · assumption
  · rw [insertAlias_self]; rfl

lemma addBook_alias_preserve_isSome {tbl : Table} {b : Book} {k : Str}
    (h : (tbl.ByAlias k).isSome) : ((addBook tbl b).ByAlias k).isSome := by
  unfold addBook
  simp only []
  have hf := @aliasFold_isSome b.OSIS b.Aliases tbl.ByAlias k h
  split
  · exact hf
  · exact insertAlias_isSome hf

lemma addBook_alias_untouched {tbl : Table} {b : Book} {k : Str} (h : k ∉ normKeys b) :
    (addBook tbl b).ByAlias k = tbl.ByAlias k := by
  unfold normKeys at h
  simp only [List.mem_append, List.mem_singleton, not_or] at h
  unfold addBook
  simp only []
  split
  · exact aliasFold_untouched _ _ _ h.1
  · rw [insertAlias_other h.2]
    exact aliasFold_untouched _ _ _ h.1

/-- Invariant of tables built by `NewTable`: every entry of `ByOsis` is
keyed by its own (validated) OSIS code. -/
def osisInv (tbl : Table) : Prop :=
  ∀ k b, tbl.ByOsis k = some b → b.OSIS = k ∧ b.Validate = none

lemma newTableAux_inv :
    ∀ (books : List Book) (t0 tbl : Table), osisInv t0 →
      newTableAux books t0 = .ok tbl → osisInv tbl := by
  intro books
  induction books with
  | nil =>
      intro t0 tbl h0 h
      simp only [newTableAux, Except.ok.injEq] at h
      exact h ▸ h0
  | cons b rest ih =>
      intro t0 tbl h0 h
      simp only [newTableAux] at h
      cases hv : b.Validate with
      | some e => rw [hv] at h; cases h
      | none =>
          rw [hv] at h
          refine ih _ _ ?_ h
          intro k bk hk
          have hk' : (if k = b.OSIS then some b else t0.ByOsis k) = some bk := hk
          split at hk'
          · rename_i hkey
            cases hk'
            exact ⟨hkey.symm, hv⟩
          · exact h0 _ _ hk'

lemma NewTable_inv {books : List Book} {tbl : Table} (h : NewTable books = .ok tbl) :
    osisInv tbl :=
  newTableAux_inv books _ tbl (fun _ _ hc => by cases hc) h

lemma newTableAux_error_of_invalid :
    ∀ (books : List Book) (t0 : Table) (b : Book), b ∈ books → b.Validate ≠ none →
      ∃ e, newTableAux books t0 = .error e := by
  intro books
  induction books with
  | nil => intro t0 b hb; simp at hb
  | cons hd rest ih =>
      intro t0 b hb hv
      simp only [newTableAux]
      cases hhd : hd.Validate with
      | some e => exact ⟨e, rfl⟩
      | none =>
          rcases List.mem_cons.mp hb with rfl | hb2
          · exact absurd hhd hv
          · exact ih (addBook t0 hd) b hb2 hv

lemma newTableAux_preserves_isSome {k : Str} :
    ∀ (books : List Book) (t0 tbl : Table), newTableAux books t0 = .ok tbl →
      (t0.ByAlias k).isSome → (tbl.ByAlias k).isSome := by
  intro books
  induction books with
  | nil =>
      intro t0 tbl h hk
      simp only [newTableAux, Except.ok.injEq] at h
      exact h ▸ hk
  | cons b rest ih =>
      intro t0 tbl h hk
      simp only [newTableAux] at h
      cases hv : b.Validate with
      | some e => rw [hv] at h; cases h
      | none =>
          rw [hv] at h
          exact ih _ _ h (addBook_alias_preserve_isSome hk)

lemma newTableAux_preserves_key {k : Str} :
    ∀ (books : List Book) (t0 tbl : Table), newTableAux books t0 = .ok tbl →
      (∀ b ∈ books, k ∉ normKeys b) → tbl.ByAlias k = t0.ByAlias k := by
  intro books
  induction books with
  | nil =>
      intro t0 tbl h _
      simp only [newTableAux, Except.ok.injEq] at h
      exact h ▸ rfl
  | cons b rest ih =>
      intro t0 tbl h hk
      simp only [newTableAux] at h
      cases hv : b.Validate with
      | some e => rw [hv] at h; cases h
      | none =>
          rw [hv] at h
          rw [ih _ _ h (fun b2 hb2 => hk b2 (List.mem_cons_of_mem _ hb2)),
            addBook_alias_untouched (hk b (List.mem_cons_self _ _))]

end TableLemmas

section ParseLemmas

lemma Parse_ok_doParse {s : Str} {tbl : Table} {r : BibleRef}
    (h : Parse s tbl = .ok r) : doParse s tbl = .ok r := by
  unfold Parse at h
  cases hd : doParse s tbl with
  | error e => rw [hd] at h; cases h
  | ok r2 => rw [hd] at h; simp only [] at h; cases h; rfl

lemma doParse_ok_inv {s : Str} {tbl : Table} {r : BibleRef}
    (h : doParse s tbl = .ok r) :
    parseRefString s tbl = .ok r ∧ r.Validate tbl = none := by
  unfold doParse at h
  cases hp : parseRefString s tbl with
  | error e => rw [hp] at h; cases h
  | ok ref =>
      rw [hp] at h
      simp only [] at h
      cases hv : ref.Validate tbl with
      | some e => rw [hv] at h; simp only [] at h; cases h
      | none =>
          rw [hv] at h
          simp only [] at h
          cases h
          exact ⟨rfl, hv⟩

lemma Validate_ok_inv {r : BibleRef} {tbl : Table} (h : r.Validate tbl = none) :
    ∃ b, tbl.ByOsis r.OSIS = some b ∧ 1 ≤ r.Chapter ∧ r.Chapter ≤ b.Chapters ∧
      ∀ v, r.Verse = some v → 1 ≤ v.StartVerse ∧
        ∀ e, v.EndVerse = some e → v.StartVerse ≤ e := by
  unfold BibleRef.Validate at h
  cases hb : tbl.ByOsis r.OSIS with
  | none => rw [hb] at h; simp only [] at h; cases h
  | some b =>
      rw [hb] at h
      simp only [] at h
      refine ⟨b, rfl, ?_⟩
      split at h
      · cases h
      · rename_i hch
        rw [not_or] at hch
        refine ⟨by omega, by omega, ?_⟩
        intro v hv
        rw [hv] at h
        simp only [] at h
        split at h
        · cases h
        · rename_i hsv
          refine ⟨by omega, ?_⟩
          intro e he
          rw [he] at h
          simp only [] at h
          split at h
          · cases h
          · rename_i hev; omega

lemma parseVerseRange_ok_bounds {s : Str} {parts : List Str} {vr : VerseRange}
    (h : parseVerseRange s parts = .ok vr) :
    vr.StartVerse ≤ 2 ^ 63 - 1 ∧ ∀ e, vr.EndVerse = some e → e ≤ 2 ^ 63 - 1 := by
  match parts with
  | [] => cases h
  | [_] => cases h
  | _ :: _ :: _ :: _ => cases h
  | [p0, p1] =>
      unfold parseVerseRange at h
      simp only [] at h
      cases hA0 : Atoi p0 with
      | error e => rw [hA0] at h; simp only [] at h; cases h
      | ok sv =>
          rw [hA0] at h
          simp only [] at h
          cases hA1 : Atoi p1 with
          | error e => rw [hA1] at h; simp only [] at h; cases h
          | ok ev =>
              rw [hA1] at h
              simp only [] at h
              cases h
              refine ⟨(Atoi_ok_bounds hA0).2, ?_⟩
              intro e he
              cases he
              exact (Atoi_ok_bounds hA1).2

lemma parseChapterVerse_ok_bounds {cv : Str} {ch : Int} {vr : Option VerseRange}
    (h : parseChapterVerse cv = .ok (ch, vr)) :
    ch ≤ 2 ^ 63 - 1 ∧ ∀ v, vr = some v → v.StartVerse ≤ 2 ^ 63 - 1 ∧
      ∀ e, v.EndVerse = some e → e ≤ 2 ^ 63 - 1 := by
  unfold parseChapterVerse at h
  simp only [] at h
  split at h
  · cases h
  · split at h
    · cases h
    · cases hA : Atoi ((splitGo cv [':']).headD []) with
      | error e => rw [hA] at h; simp only [] at h; cases h
      | ok chapter =>
          rw [hA] at h
          simp only [] at h
          split at h
          · cases h
            exact ⟨(Atoi_ok_bounds hA).2, by rintro v ⟨⟩⟩
          · split at h
            · cases hpv : parseVerseRange
                  (NormalizeVerseRange ((splitGo cv [':']).getLastD []))
                  (splitGo (NormalizeVerseRange ((splitGo cv [':']).getLastD [])) [enDash]) with
              | error e => rw [hpv] at h; simp only [] at h; cases h
              | ok vrange =>
                  rw [hpv] at h
                  simp only [] at h
                  cases h
                  refine ⟨(Atoi_ok_bounds hA).2, ?_⟩
                  rintro v ⟨⟩
                  exact parseVerseRange_ok_bounds hpv
            · cases hA2 : Atoi (NormalizeVerseRange ((splitGo cv [':']).getLastD [])) with
              | error e => rw [hA2] at h; simp only [] at h; cases h
              | ok sv =>
                  rw [hA2] at h
                  simp only [] at h
                  cases h
                  refine ⟨(Atoi_ok_bounds hA).2, ?_⟩
                  rintro v ⟨⟩
                  exact ⟨(Atoi_ok_bounds hA2).2, by rintro e ⟨⟩⟩

lemma parseRefString_ok_bounds {s : Str} {tbl : Table} {r : BibleRef}
    (h : parseRefString s tbl = .ok r) :
    r.Chapter ≤ 2 ^ 63 - 1 ∧ ∀ v, r.Verse = some v → v.StartVerse ≤ 2 ^ 63 - 1 ∧
      ∀ e, v.EndVerse = some e → e ≤ 2 ^ 63 - 1 := by
  unfold parseRefString at h
  simp only [] at h
  split at h
  · cases h
  · split at h
    · cases h
    · cases hpt : parseTail ((fieldsGo (trimSpaceGo s)).getLastD []) with
      | error e => rw [hpt] at h; simp only [] at h; cases h
      | ok cv =>
          rw [hpt] at h
          simp only [] at h
          cases hbo : tbl.ByOsis ((tbl.ByAlias (NormalizeAlias
              (joinSp (fieldsGo (trimSpaceGo s)).dropLast))).getD (NormalizeAlias
              (joinSp (fieldsGo (trimSpaceGo s)).dropLast))) with
          | none => rw [hbo] at h; simp only [] at h; cases h
          | some book =>
              rw [hbo] at h
              simp only [] at h
              cases hcv : parseChapterVerse cv with
              | error e => rw [hcv] at h; simp only [] at h; cases h
              | ok chvr =>
                  rw [hcv] at h
                  simp only [] at h
                  obtain ⟨ch, vr⟩ := chvr
                  have hb := parseChapterVerse_ok_bounds hcv
                  cases vr with
                  | none =>
                      simp only [] at h
                      split at h
                      · cases h
                      · cases h
                        exact ⟨hb.1, by rintro v ⟨⟩⟩
                  | some v0 =>
                      simp only [] at h
                      split at h
                      · cases h
                      · split at h
                        · cases h
                        · cases h
                          refine ⟨hb.1, ?_⟩
                          rintro v ⟨⟩
                          exact hb.2 v0 rfl

lemma trimSpaceGo_of_all {s : Str} (h : ∀ x ∈ s, isSpaceGo x = false) :
    trimSpaceGo s = s := by
  apply trimSpaceGo_of_ends
  · intro d t hdt
    exact h d (by rw [hdt]; exact List.mem_cons_self _ _)
  · intro d t hdt
    have hd : d ∈ s.reverse := by rw [hdt]; exact List.mem_cons_self _ _
    exact h d (List.mem_reverse.mp hd)

lemma trim_pair {a tl : Str} (ha : a ≠ []) (htl : tl ≠ [])
    (han : ∀ x ∈ a, isSpaceGo x = false) (htn : ∀ x ∈ tl, isSpaceGo x = false) :
    trimSpaceGo (a ++ ' ' :: tl) = a ++ ' ' :: tl := by
  apply trimSpaceGo_of_ends
  · intro d t hdt
    cases a with
    | nil => exact absurd rfl ha
    | cons a0 arest =>
        rw [List.cons_append] at hdt
        injection hdt with hh1 hh2
        exact hh1 ▸ han a0 (List.mem_cons_self _ _)
  · intro d t hdt
    obtain ⟨y, ys, hrev, hy⟩ := reverse_head htl
    rw [List.reverse_append, List.reverse_cons, hrev] at hdt
    simp only [List.cons_append, List.append_assoc] at hdt
    injection hdt with hh1 hh2
    exact hh1 ▸ htn y hy

lemma NormalizeVerseRange_id {vs : Str} (hns : ∀ x ∈ vs, isSpaceGo x = false)
    (hnh : hyphenCh ∉ vs) (hnsp : ' ' ∉ vs) : NormalizeVerseRange vs = vs := by
  simp only [NormalizeVerseRange]
  rw [trimSpaceGo_of_all hns, replaceAll_no_occ hnh, replaceAll_no_occ hnsp]

lemma parseTail_all_digits {ds : Str} (hne : ds ≠ [])
    (hall : ∀ x ∈ ds, isDigitCh x = true) : parseTail ds = .ok ds := by
  have hdrop : ds.dropWhile isDigitCh = [] := by
    have h := dropWhile_append_of_all ds [] hall (by rintro d t2 ⟨⟩)
    simpa using h
  cases ds with
  | nil => exact absurd rfl hne
  | cons c t =>
      have hc : isDigitCh c = true := hall c (List.mem_cons_self _ _)
      simp only [parseTail]
      rw [if_neg (by simp [hc]), hdrop]

lemma parseTail_with_verse {ds vs : Str} (hne : ds ≠ [])
    (hall : ∀ x ∈ ds, isDigitCh x = true) (hvs : vs ≠ []) :
    parseTail (ds ++ ':' :: vs) = .ok (ds ++ ':' :: NormalizeVerseRange vs) := by
  have hcol : ∀ (d : Char) (t2 : Str), (':' :: vs : Str) = d :: t2 → isDigitCh d = false := by
    intro d t2 hh; cases hh; decide
  have ht : (ds ++ ':' :: vs).takeWhile isDigitCh = ds :=
    takeWhile_append_of_all ds (':' :: vs) hall hcol
  have hd : (ds ++ ':' :: vs).dropWhile isDigitCh = ':' :: vs :=
    dropWhile_append_of_all ds (':' :: vs) hall hcol
  cases ds with
  | nil => exact absurd rfl hne
  | cons c t =>
      have hc : isDigitCh c = true := hall c (List.mem_cons_self _ _)
      rw [List.cons_append] at ht hd ⊢
      simp only [parseTail]
      rw [if_neg (by simp [hc]), ht, hd]
      simp only []
      rw [if_neg (by simp), if_neg hvs]

lemma parseRefString_compute {tbl : Table} {s t2 bookStr cv : Str}
    {fs : List Str} {b : Book} {ch : Int} {vr : Option VerseRange}
    (h1 : trimSpaceGo s = t2) (h2 : ¬ t2 = []) (h3 : fieldsGo t2 = fs)
    (h4 : ¬ fs.length < 2)
    (h5 : NormalizeAlias (joinSp fs.dropLast) = bookStr)
    (h6 : parseTail (fs.getLastD []) = .ok cv)
    (h7 : tbl.ByOsis ((tbl.ByAlias bookStr).getD bookStr) = some b)
    (h9 : parseChapterVerse cv = .ok (ch, vr))
    (h10 : ∀ v, vr = some v → ¬ v.StartVerse < 1)
    (h11 : BibleRef.Validate ⟨b.OSIS, ch, vr⟩ tbl = none) :
    parseRefString s tbl = .ok ⟨b.OSIS, ch, vr⟩ := by
  unfold parseRefString
  simp only [h1, h3, h5, h6, h9, if_neg h2, if_neg h4, h7]
  cases vr with
  | none => simp only [h11]
  | some v0 =>
      simp only []
      rw [if_neg (h10 v0 rfl)]
      simp only [h11]

lemma Parse_of_parseRefString {s : Str} {tbl : Table} {r : BibleRef}
    (hp : parseRefString s tbl = .ok r) (hv : r.Validate tbl = none) :
    Parse s tbl = .ok r := by
  simp only [Parse, doParse, hp, hv]

lemma doParse_of_parseRefString_error {s : Str} {tbl : Table} {e : GoError}
    (hp : parseRefString s tbl = .error e) : doParse s tbl = .error e := by
  simp only [doParse, hp]

lemma Parse_of_doParse_error {s : Str} {tbl : Table} {e : GoError}
    (hd : doParse s tbl = .error e) :
    Parse s tbl = .error (.bibleRefError .KindParse
      (some (str "failed to parse reference string: " ++ s))
      .ErrBibleRefParseFailed e) := by
  simp only [Parse, hd]

lemma bookValidate_none_inv {b : Book} (h : b.Validate = none) :
    b.OSIS ≠ [] ∧ b.Name ≠ [] ∧ 1 ≤ b.Chapters ∧ 1 ≤ b.Order := by
  unfold Book.Validate at h
  split_ifs at h with h1 h2 h3 h4
  exact ⟨h1, h2, by omega, by omega⟩

lemma resolveBook_eq (tbl : Table) (k : Str) :
    resolveBook tbl k = tbl.ByOsis ((tbl.ByAlias k).getD k) := by
  unfold resolveBook
  cases tbl.ByAlias k <;> simp

lemma newTable_single_inv {b : Book} {tbl : Table} (h : NewTable [b] = .ok tbl) :
    b.Validate = none ∧ tbl = addBook ⟨fun _ => none, fun _ => none⟩ b := by
  unfold NewTable newTableAux at h
  cases hv : b.Validate with
  | some e => rw [hv] at h; cases h
  | none =>
      rw [hv] at h
      simp only [newTableAux] at h
      cases h
      exact ⟨rfl, rfl⟩


lemma natToStr_nonspace {n : Nat} : ∀ x ∈ natToStr n, isSpaceGo x = false :=
  fun _ hx => isDigit_not_space (natToStr_digits hx)

lemma colon_not_mem_natToStr {n : Nat} : ':' ∉ natToStr n :=
  fun hmem => absurd (natToStr_digits hmem) (by decide)

lemma enDash_not_mem_natToStr {n : Nat} : enDash ∉ natToStr n :=
  fun hmem => absurd (natToStr_digits hmem) (by decide)

lemma hyphen_not_mem_natToStr {n : Nat} : hyphenCh ∉ natToStr n :=
  fun hmem => absurd (natToStr_digits hmem) (by decide)

lemma space_not_mem_natToStr {n : Nat} : ' ' ∉ natToStr n :=
  fun hmem => absurd (natToStr_digits hmem) (by decide)

lemma rangeStr_nonspace {sn en : Nat} :
    ∀ x ∈ natToStr sn ++ enDash :: natToStr en, isSpaceGo x = false := by
  intro x hx
  rcases List.mem_append.mp hx with h | h
  · exact natToStr_nonspace x h
  · rcases List.mem_cons.mp h with rfl | h2
    · decide
    · exact natToStr_nonspace x h2

lemma hyphen_not_mem_rangeStr {sn en : Nat} :
    hyphenCh ∉ natToStr sn ++ enDash :: natToStr en := by
  intro hx
  rcases List.mem_append.mp hx with h | h
  · exact hyphen_not_mem_natToStr h
  · rcases List.mem_cons.mp h with heq | h2
    · exact absurd heq (by decide)
    · exact hyphen_not_mem_natToStr h2

lemma space_not_mem_rangeStr {sn en : Nat} :
    ' ' ∉ natToStr sn ++ enDash :: natToStr en := by
  intro hx
  rcases List.mem_append.mp hx with h | h
  · exact space_not_mem_natToStr h
  · rcases List.mem_cons.mp h with heq | h2
    · exact absurd heq (by decide)
    · exact space_not_mem_natToStr h2

lemma colon_not_mem_rangeStr {sn en : Nat} :
    ':' ∉ natToStr sn ++ enDash :: natToStr en := by
  intro hx
  rcases List.mem_append.mp hx with h | h
  · exact colon_not_mem_natToStr h
  · rcases List.mem_cons.mp h with heq | h2
    · exact absurd heq (by decide)
    · exact colon_not_mem_natToStr h2

lemma NormalizeVerseRange_natToStr (sn : Nat) :
    NormalizeVerseRange (natToStr sn) = natToStr sn :=
  NormalizeVerseRange_id natToStr_nonspace hyphen_not_mem_natToStr space_not_mem_natToStr

lemma NormalizeVerseRange_rangeStr (sn en : Nat) :
    NormalizeVerseRange (natToStr sn ++ enDash :: natToStr en)
      = natToStr sn ++ enDash :: natToStr en :=
  NormalizeVerseRange_id rangeStr_nonspace hyphen_not_mem_rangeStr space_not_mem_rangeStr

lemma parseChapterVerse_chapter_only {n : Nat} (hnb : (n : Int) ≤ 2 ^ 63 - 1) :
    parseChapterVerse (natToStr n) = .ok ((n : Int), none) := by
  have hsplit : splitGo (natToStr n) [':'] = [natToStr n] :=
    splitGo_no_sep colon_not_mem_natToStr
  unfold parseChapterVerse
  simp only [hsplit]
  rw [if_neg (by simp), if_neg (by simp)]
  simp only [List.headD_cons]
  rw [Atoi_natToStr hnb]
  simp only []
  rw [if_pos (by simp)]

lemma parseChapterVerse_single {n sn : Nat} (hnb : (n : Int) ≤ 2 ^ 63 - 1)
    (hsb : (sn : Int) ≤ 2 ^ 63 - 1) :
    parseChapterVerse (natToStr n ++ ':' :: natToStr sn)
      = .ok ((n : Int), some ⟨(sn : Int), none⟩) := by
  have hsplit : splitGo (natToStr n ++ ':' :: natToStr sn) [':']
      = [natToStr n, natToStr sn] := by
    rw [splitGo_found colon_not_mem_natToStr, splitGo_no_sep colon_not_mem_natToStr]
  unfold parseChapterVerse
  simp only [hsplit]
  rw [if_neg (by simp), if_neg (by simp)]
  simp only [List.headD_cons]
  rw [Atoi_natToStr hnb]
  simp only []
  rw [if_neg (by simp)]
  rw [show ([natToStr n, natToStr sn] : List Str).getLastD [] = natToStr sn from rfl]
  rw [NormalizeVerseRange_natToStr]
  rw [if_neg (fun h => enDash_not_mem_natToStr ((containsSub_single _ _).mp h))]
  rw [Atoi_natToStr hsb]

lemma parseChapterVerse_range {n sn en : Nat} (hnb : (n : Int) ≤ 2 ^ 63 - 1)
    (hsb : (sn : Int) ≤ 2 ^ 63 - 1) (heb : (en : Int) ≤ 2 ^ 63 - 1) :
    parseChapterVerse (natToStr n ++ ':' :: (natToStr sn ++ enDash :: natToStr en))
      = .ok ((n : Int), some ⟨(sn : Int), some (en : Int)⟩) := by
  have hsplit : splitGo (natToStr n ++ ':' :: (natToStr sn ++ enDash :: natToStr en)) [':']
      = [natToStr n, natToStr sn ++ enDash :: natToStr en] := by
    rw [splitGo_found colon_not_mem_natToStr, splitGo_no_sep colon_not_mem_rangeStr]
  have hsplit2 : splitGo (natToStr sn ++ enDash :: natToStr en) [enDash]
      = [natToStr sn, natToStr en] := by
    rw [splitGo_found enDash_not_mem_natToStr, splitGo_no_sep enDash_not_mem_natToStr]
  unfold parseChapterVerse
  simp only [hsplit]
  rw [if_neg (by simp), if_neg (by simp)]
  simp only [List.headD_cons]
  rw [Atoi_natToStr hnb]
  simp only []
  rw [if_neg (by simp)]
  rw [show ([natToStr n, natToStr sn ++ enDash :: natToStr en] : List Str).getLastD []
    = natToStr sn ++ enDash :: natToStr en from rfl]
  rw [NormalizeVerseRange_rangeStr]
  rw [if_pos ((containsSub_single _ _).mpr
    (List.mem_append_right _ (List.mem_cons_self _ _)))]
  rw [hsplit2]
  unfold parseVerseRange
  simp only []
  rw [Atoi_natToStr hsb]
  simp only []
  rw [Atoi_natToStr heb]

lemma newTableAux_alias_present :
    ∀ (books : List Book) (t0 tbl : Table), newTableAux books t0 = .ok tbl →
      ∀ b ∈ books, ∀ k ∈ normKeys b, (tbl.ByAlias k).isSome := by
  intro books
  induction books with
  | nil => intro t0 tbl _ b hb; simp at hb
  | cons hd rest ih =>
      intro t0 tbl h b hb k hk
      simp only [newTableAux] at h
      cases hv : hd.Validate with
      | some e => rw [hv] at h; cases h
      | none =>
          rw [hv] at h
          rcases List.mem_cons.mp hb with rfl | hb2
          · refine newTableAux_preserves_isSome rest _ _ h ?_
            unfold normKeys at hk
            rcases List.mem_append.mp hk with hk1 | hk2
            · obtain ⟨a, ha, rfl⟩ := List.mem_map.mp hk1
              rw [addBook_alias_of_mem ha]; rfl
            · rw [List.mem_singleton.mp hk2]
              exact addBook_alias_isSome_own
          · exact ih _ _ h b hb2 k hk

lemma newTableAux_alias_correct :
    ∀ (books : List Book) (t0 tbl : Table), newTableAux books t0 = .ok tbl →
      books.Pairwise (fun b1 b2 => ∀ k, k ∈ normKeys b1 → k ∉ normKeys b2) →
      ∀ b ∈ books, (∀ k2 ∈ normKeys b, t0.ByAlias k2 = none) →
        ∀ k ∈ normKeys b, tbl.ByAlias k = some b.OSIS := by
  intro books
  induction books with
  | nil => intro t0 tbl _ _ b hb; simp at hb
  | cons hd rest ih =>
      intro t0 tbl h hpw b hb h0 k hk
      simp only [newTableAux] at h
      rw [List.pairwise_cons] at hpw
      cases hv : hd.Validate with
      | some e => rw [hv] at h; cases h
      | none =>
          rw [hv] at h
          rcases List.mem_cons.mp hb with rfl | hb2
          · have hafter : (addBook t0 b).ByAlias k = some b.OSIS := by
              unfold normKeys at hk
              rcases List.mem_append.mp hk with hk1 | hk2
              · obtain ⟨a, ha, rfl⟩ := List.mem_map.mp hk1
                exact addBook_alias_of_mem ha
              · rw [List.mem_singleton.mp hk2]
                exact addBook_alias_own (h0 _ (by
                  unfold normKeys
                  exact List.mem_append.mpr (Or.inr (List.mem_singleton.mpr rfl))))
            rw [newTableAux_preserves_key rest _ _ h
              (fun b2 hb2 => (hpw.1 b2 hb2) k hk), hafter]
          · refine ih _ _ h hpw.2 b hb2 ?_ k hk
            intro k2 hk2
            rw [addBook_alias_untouched (fun hmem => hpw.1 b hb2 k2 hmem hk2)]
            exact h0 k2 hk2

end ParseLemmas

/-- C5: for every reference with a verse range, the canonical rendering
(`String` / `Format` with `FormatCanonical`) is "Id Chapter:start–end"
with the verse-range separator being the U+2013 en-dash, not a hyphen;
in particular {OSIS "Prov", chapter 31, verses 10–31} renders exactly as
"Prov 31:10–31". -/
theorem C5_canonical_rendering :
    (∀ (r : BibleRef) (v e : Int), r.Verse = some ⟨v, some e⟩ →
      r.render = r.OSIS ++ ' ' :: intToStr r.Chapter ++
        ':' :: (intToStr v ++ enDash :: intToStr e)) ∧
    BibleRef.render ⟨str "Prov", 31, some ⟨10, some 31⟩⟩ = str "Prov 31:10–31" ∧
    enDash ≠ hyphenCh ∧
    str "Prov 31:10–31" ≠ str "Prov 31:10-31" ∧
    (∀ (r : BibleRef) (tbl : Table), r.renderFormat .FormatCanonical tbl = r.render) := by
  refine ⟨?_, by decide, by decide, by decide, ?_⟩
  · intro r v e hv
    obtain ⟨o, c, vr⟩ := r
    have hv2 : vr = some ⟨v, some e⟩ := hv
    subst hv2
    rfl
  · intro r tbl
    obtain ⟨o, c, v⟩ := r
    cases v <;> rfl

/-- Witness for C5 at the concrete reference Prov 31:10–31. -/
theorem C5_canonical_rendering_witness :
    BibleRef.render ⟨str "Prov", 31, some ⟨10, some 31⟩⟩ =
      str "Prov" ++ ' ' :: intToStr 31 ++ ':' :: (intToStr 10 ++ enDash :: intToStr 31) :=
  C5_canonical_rendering.1 ⟨str "Prov", 31, some ⟨10, some 31⟩⟩ 10 31 rfl

/-- C6: for a reference whose OSIS code is in the registry with chapter
bound `N = b.Chapters`, validation fails with `KindInvalidChapter`
exactly when the chapter is below 1 or above `N`, the error message
contains the book's display name, and an in-range chapter-only
reference validates. -/
theorem C6_chapter_bounds :
    ∀ (tbl : Table) (r : BibleRef) (b : Book), tbl.ByOsis r.OSIS = some b →
      ((r.Chapter < 1 ∨ b.Chapters < r.Chapter) →
        r.Validate tbl = some (.bibleRefError .KindInvalidChapter
          (some (str "invalid chapter number " ++ intToStr r.Chapter ++
            str " for book " ++ b.Name)) .ErrInvalidChapter .nil) ∧
        ∃ pre post, (str "invalid chapter number " ++ intToStr r.Chapter ++
            str " for book " ++ b.Name) = pre ++ b.Name ++ post) ∧
      (1 ≤ r.Chapter → r.Chapter ≤ b.Chapters →
        ∀ k m sn c, r.Validate tbl = some (.bibleRefError k m sn c) →
          k ≠ .KindInvalidChapter) ∧
      (1 ≤ r.Chapter → r.Chapter ≤ b.Chapters → r.Verse = none →
        r.Validate tbl = none) := by
  intro tbl r b hb
  refine ⟨?_, ?_, ?_⟩
  · intro hrange
    constructor
    · unfold BibleRef.Validate
      rw [hb]
      simp only []
      rw [if_pos (by omega)]
    · exact ⟨str "invalid chapter number " ++ intToStr r.Chapter ++ str " for book ",
        [], by simp⟩
  · intro h1 h2 k m sn c hval
    unfold BibleRef.Validate at hval
    rw [hb] at hval
    simp only [] at hval
    rw [if_neg (by omega)] at hval
    cases hv : r.Verse with
    | none => rw [hv] at hval; simp only [] at hval; cases hval
    | some v =>
        rw [hv] at hval
        simp only [] at hval
        split at hval
        · cases hval; decide
        · cases he : v.EndVerse with
          | none => rw [he] at hval; simp only [] at hval; cases hval
          | some e2 =>
              rw [he] at hval
              simp only [] at hval
              split at hval
              · cases hval; decide
              · cases hval
  · intro h1 h2 hvnone
    unfold BibleRef.Validate
    rw [hb]
    simp only []
    rw [if_neg (by omega), hvnone]

/-- Witness for C6 with `Proverbs` (31 chapters): chapter 32 fails with
`KindInvalidChapter` and a message containing "Proverbs", chapter 0
fails the same way, and chapter 31 validates. -/
theorem C6_chapter_bounds_witness :
    (BibleRef.Validate ⟨str "Prov", 32, none⟩ provTbl = some (.bibleRefError
      .KindInvalidChapter (some (str "invalid chapter number " ++ intToStr 32 ++
        str " for book " ++ bookProv.Name)) .ErrInvalidChapter .nil) ∧
      ∃ pre post, (str "invalid chapter number " ++ intToStr 32 ++
        str " for book " ++ bookProv.Name) = pre ++ bookProv.Name ++ post) ∧
    (BibleRef.Validate ⟨str "Prov", 0, none⟩ provTbl = some (.bibleRefError
      .KindInvalidChapter (some (str "invalid chapter number " ++ intToStr 0 ++
        str " for book " ++ bookProv.Name)) .ErrInvalidChapter .nil) ∧
      ∃ pre post, (str "invalid chapter number " ++ intToStr 0 ++
        str " for book " ++ bookProv.Name) = pre ++ bookProv.Name ++ post) ∧
    BibleRef.Validate ⟨str "Prov", 31, none⟩ provTbl = none :=
  ⟨(C6_chapter_bounds provTbl ⟨str "Prov", 32, none⟩ bookProv (by decide)).1
      (Or.inr (by decide)),
    (C6_chapter_bounds provTbl ⟨str "Prov", 0, none⟩ bookProv (by decide)).1
      (Or.inl (by decide)),
    (C6_chapter_bounds provTbl ⟨str "Prov", 31, none⟩ bookProv (by decide)).2.2
      (by decide) (by decide) rfl⟩

/-- C7: validation rejects a reversed verse range with
`KindInvalidVerse`, while "Prov 1:10–20" parses to start 10, end 20 and
"Prov 1:20–10" is rejected with an `KindInvalidVerse` cause. -/
theorem C7_range_direction :
    (∀ (tbl : Table) (r : BibleRef) (b : Book) (vs ve : Int),
      tbl.ByOsis r.OSIS = some b → 1 ≤ r.Chapter → r.Chapter ≤ b.Chapters →
      r.Verse = some ⟨vs, some ve⟩ → 1 ≤ vs → ve < vs →
      r.Validate tbl = some (.bibleRefError .KindInvalidVerse
        (some (str "end verse must be greater than or equal to start verse, got start: "
          ++ intToStr vs ++ str ", end: " ++ intToStr ve)) .ErrInvalidVerse .nil)) ∧
    Parse (str "Prov 1:10–20") provTbl = .ok ⟨str "Prov", 1, some ⟨10, some 20⟩⟩ ∧
    Parse (str "Prov 1:20–10") provTbl = .error (.bibleRefError .KindParse
      (some (str "failed to parse reference string: Prov 1:20–10"))
      .ErrBibleRefParseFailed (.bibleRefError .KindInvalidVerse
        (some (str "end verse must be greater than or equal to start verse, got start: 20, end: 10"))
        .ErrInvalidVerse .nil)) := by
  refine ⟨?_, by decide, by decide⟩
  intro tbl r b vs ve hb h1 h2 hv hs he
  unfold BibleRef.Validate
  rw [hb]
  simp only []
  rw [if_neg (by omega), hv]
  simp only []
  rw [if_neg (by omega)]
  try simp only []
  rw [if_pos he]

/-- Witness for C7: the reversed range 20–10 on Proverbs 1. -/
theorem C7_range_direction_witness :
    BibleRef.Validate ⟨str "Prov", 1, some ⟨20, some 10⟩⟩ provTbl
      = some (.bibleRefError .KindInvalidVerse
        (some (str "end verse must be greater than or equal to start verse, got start: "
          ++ intToStr 20 ++ str ", end: " ++ intToStr 10)) .ErrInvalidVerse .nil) :=
  C7_range_direction.1 provTbl ⟨str "Prov", 1, some ⟨20, some 10⟩⟩ bookProv 20 10
    (by decide) (by decide) (by decide) rfl (by decide) (by decide)

/-- C9 as stated is false for digit strings beyond the 64-bit integer
range: `parseTail` accepts the all-digit token of nineteen nines, but
`parseChapterVerse` then fails with `KindInvalidChapter` (range error
from `Atoi`) instead of succeeding as a chapter-only reference. -/
theorem C9_counterexample :
    bigTail.all isDigitCh = true ∧ bigTail ≠ [] ∧
    parseTail bigTail = .ok bigTail ∧
    parseChapterVerse bigTail = .error (.bibleRefError .KindInvalidChapter
      (some (str "invalid chapter: " ++ bigTail)) .ErrInvalidChapter
      (.numError (str "Atoi") bigTail true)) :=
  ⟨by decide, by decide, by decide, by decide⟩

/-- C9 amended: a tail whose first character is not an ASCII digit fails
with `KindInvalidChapter`; a non-empty all-digit tail passes `parseTail`
unchanged and, provided its numeric value fits in a 64-bit integer,
`parseChapterVerse` returns it as a chapter-only reference. -/
theorem C9_tail_parsing_amended :
    (∀ (tail : Str) (c : Char) (rest : Str), tail = c :: rest → isDigitCh c = false →
      parseTail tail = .error (.bibleRefError .KindInvalidChapter
        (some (str "tail must start with a digit, got: " ++ tail))
        .ErrInvalidChapter .nil)) ∧
    (∀ tail : Str, tail ≠ [] → (∀ x ∈ tail, isDigitCh x = true) →
      parseTail tail = .ok tail ∧
      ((strToNat tail : Int) ≤ 2 ^ 63 - 1 →
        parseChapterVerse tail = .ok ((strToNat tail : Int), none))) := by
  constructor
  · intro tail c rest htail hdig
    subst htail
    simp only [parseTail]
    rw [if_pos (by simp [hdig])]
  · intro tail hne hall
    refine ⟨parseTail_all_digits hne hall, ?_⟩
    intro hbound
    have hcolon : ':' ∉ tail := fun hmem => absurd (hall ':' hmem) (by decide)
    have hsplit : splitGo tail [':'] = [tail] := splitGo_no_sep hcolon
    unfold parseChapterVerse
    simp only [hsplit]
    rw [if_neg (by simp), if_neg (by simp)]
    simp only [List.headD_cons]
    rw [Atoi_all_digits hne (by rw [List.all_eq_true]; exact hall)
      (by
        intro c t htail
        have hc : isDigitCh c = true := hall c (by rw [htail]; exact List.mem_cons_self _ _)
        constructor <;> rintro rfl <;> simp [isDigitCh] at hc) hbound]
    simp only []
    rw [if_pos (by simp)]

/-- Witness for C9 amended: the digit tail "31" and a tail starting with
a letter. -/
theorem C9_tail_parsing_amended_witness :
    parseTail (str "x1") = .error (.bibleRefError .KindInvalidChapter
      (some (str "tail must start with a digit, got: " ++ str "x1"))
      .ErrInvalidChapter .nil) ∧
    parseTail (str "31") = .ok (str "31") ∧
    parseChapterVerse (str "31") = .ok ((strToNat (str "31") : Int), none) := by
  exact ⟨C9_tail_parsing_amended.1 (str "x1") 'x' (str "1") (by decide) (by decide),
    (C9_tail_parsing_amended.2 (str "31") (by decide) (by decide)).1,
    (C9_tail_parsing_amended.2 (str "31") (by decide) (by decide)).2 (by decide)⟩

/-- C10: `NewTable` rejects any input list containing a book whose
`Order` field is below 1 — `Book.Validate` returns the
`KindInvalidBook` error "book order must be a positive integer" for
such a book, and the table construction returns an error. -/
theorem C10_order_rejected :
    ∀ (books : List Book) (b : Book), b ∈ books → b.Order < 1 →
      (∃ e, NewTable books = .error e) ∧ ∀ tbl, NewTable books ≠ .ok tbl := by
  intro books b hb hord
  have hv : b.Validate ≠ none := by
    unfold Book.Validate
    split_ifs <;> simp
  obtain ⟨e, he⟩ :=
    newTableAux_error_of_invalid books ⟨fun _ => none, fun _ => none⟩ b hb hv
  refine ⟨⟨e, he⟩, ?_⟩
  intro tbl hok
  rw [show NewTable books = newTableAux books ⟨fun _ => none, fun _ => none⟩ from rfl,
    he] at hok
  cases hok

/-- Witness for C10: a book with `Order = 0` is rejected. -/
theorem C10_order_rejected_witness :
    (∃ e, NewTable [bookBadOrder] = .error e) ∧
      ∀ tbl, NewTable [bookBadOrder] ≠ .ok tbl :=
  C10_order_rejected [bookBadOrder] bookBadOrder (by decide) (by decide)

/-- C2 as stated is false: when a later book re-registers an alias
(here "prov", also the normalized OSIS key of Proverbs), the key stays
present but maps to the later book's OSIS, not to Proverbs. -/
theorem C2_counterexample :
    NewTable booksC2 = .ok tblC2 ∧
    bookProvC2 ∈ booksC2 ∧
    str "prov" ∈ bookProvC2.Aliases ∧
    NormalizeAlias (str "prov") = str "prov" ∧
    tblC2.ByAlias (str "prov") = some (str "Matt") ∧
    ¬ tblC2.ByAlias (str "prov") = some bookProvC2.OSIS :=
  ⟨rfl, by decide, by decide, by decide, by decide, by decide⟩

/-- C2 amended: for every accepted book list, the table's `ByAlias` map
contains the normalized form of every alias and of every book's own
OSIS code as a key; and when no two distinct books contribute a common
normalized key, each such key maps to its own book's OSIS code. -/
theorem C2_alias_table_amended :
    ∀ (books : List Book) (tbl : Table), NewTable books = .ok tbl →
      (∀ b ∈ books, ∀ k ∈ normKeys b, (tbl.ByAlias k).isSome) ∧
      (books.Pairwise (fun b1 b2 => ∀ k, k ∈ normKeys b1 → k ∉ normKeys b2) →
        ∀ b ∈ books, ∀ k ∈ normKeys b, tbl.ByAlias k = some b.OSIS) := by
  intro books tbl h
  refine ⟨newTableAux_alias_present books _ tbl h, ?_⟩
  intro hpw b hb k hk
  exact newTableAux_alias_correct books _ tbl h hpw b hb (fun _ _ => rfl) k hk

/-- Witness for C2 amended on the one-book Proverbs registry. -/
theorem C2_alias_table_amended_witness :
    (provTbl.ByAlias (NormalizeAlias (str "proverbs"))).isSome ∧
    provTbl.ByAlias (NormalizeAlias (str "proverbs")) = some bookProv.OSIS := by
  have h := C2_alias_table_amended [bookProv] provTbl rfl
  exact ⟨h.1 bookProv (by decide) _ (by decide),
    h.2 (by simp) bookProv (by decide) _ (by decide)⟩

/-- C3 as stated is false of the error `Parse` itself returns: for
"Unknown 1:1" the returned error has kind `KindParse`; the
`KindUnknownBook` error is its `Cause`. -/
theorem C3_counterexample :
    Parse (str "Unknown 1:1") provTbl = .error (.bibleRefError .KindParse
      (some (str "failed to parse reference string: Unknown 1:1"))
      .ErrBibleRefParseFailed
      (.bibleRefError .KindUnknownBook (some (str "unknown book: unknown"))
        .ErrInvalidOSISCode .nil)) ∧
    ErrKind.KindParse ≠ ErrKind.KindUnknownBook :=
  ⟨by decide, by decide⟩

/-- C3 amended: for every otherwise well-formed input whose head
resolves neither via the alias map nor as a literal OSIS key, the parse
pipeline (`doParse`) fails with exactly the `KindUnknownBook` error and
never any other kind, and `Parse` wraps that error in a `KindParse`
error carrying it as the `Cause`. -/
theorem C3_unknown_book_amended :
    ∀ (tbl : Table) (s cv : Str),
      2 ≤ (fieldsGo (trimSpaceGo s)).length →
      parseTail ((fieldsGo (trimSpaceGo s)).getLastD []) = .ok cv →
      tbl.ByOsis ((tbl.ByAlias (NormalizeAlias
          (joinSp (fieldsGo (trimSpaceGo s)).dropLast))).getD
        (NormalizeAlias (joinSp (fieldsGo (trimSpaceGo s)).dropLast))) = none →
      doParse s tbl = .error (.bibleRefError .KindUnknownBook
        (some (str "unknown book: " ++
          NormalizeAlias (joinSp (fieldsGo (trimSpaceGo s)).dropLast)))
        .ErrInvalidOSISCode .nil) ∧
      Parse s tbl = .error (.bibleRefError .KindParse
        (some (str "failed to parse reference string: " ++ s)) .ErrBibleRefParseFailed
        (.bibleRefError .KindUnknownBook
          (some (str "unknown book: " ++
            NormalizeAlias (joinSp (fieldsGo (trimSpaceGo s)).dropLast)))
          .ErrInvalidOSISCode .nil)) := by
  intro tbl s cv hlen hpt hres
  have ht : ¬ trimSpaceGo s = [] := by
    intro h0
    rw [h0] at hlen
    simp [fieldsGo, fieldsAux] at hlen
  have herr : parseRefString s tbl = .error (.bibleRefError .KindUnknownBook
      (some (str "unknown book: " ++
        NormalizeAlias (joinSp (fieldsGo (trimSpaceGo s)).dropLast)))
      .ErrInvalidOSISCode .nil) := by
    unfold parseRefString
    simp only [if_neg ht,
      if_neg (show ¬ (fieldsGo (trimSpaceGo s)).length < 2 by omega), hpt, hres]
  exact ⟨doParse_of_parseRefString_error herr,
    Parse_of_doParse_error (doParse_of_parseRefString_error herr)⟩

/-- Witness for C3 amended: "Unknown 1:1" against the Proverbs
registry. -/
theorem C3_unknown_book_amended_witness :
    doParse (str "Unknown 1:1") provTbl = .error (.bibleRefError .KindUnknownBook
      (some (str "unknown book: " ++
        NormalizeAlias (joinSp (fieldsGo (trimSpaceGo (str "Unknown 1:1"))).dropLast)))
      .ErrInvalidOSISCode .nil) ∧
    Parse (str "Unknown 1:1") provTbl = .error (.bibleRefError .KindParse
      (some (str "failed to parse reference string: " ++ str "Unknown 1:1"))
      .ErrBibleRefParseFailed
      (.bibleRefError .KindUnknownBook
        (some (str "unknown book: " ++
          NormalizeAlias (joinSp (fieldsGo (trimSpaceGo (str "Unknown 1:1"))).dropLast)))
        .ErrInvalidOSISCode .nil)) :=
  C3_unknown_book_amended provTbl (str "Unknown 1:1") (str "1:1")
    (by decide) (by decide) (by decide)

/-- C4: against any registry resolving the head "Book", parsing
"Book 1:1-5" (ASCII hyphen) and "Book 1:1–5" (en-dash U+2013) both
succeed and produce the identical structured reference with chapter 1
and verse range 1–5. -/
theorem C4_dash_equivalence :
    ∀ (books : List Book) (tbl : Table) (b : Book),
      NewTable books = .ok tbl →
      resolveBook tbl (NormalizeAlias (str "Book")) = some b →
      Parse (str "Book 1:1-5") tbl = .ok ⟨b.OSIS, 1, some ⟨1, some 5⟩⟩ ∧
      Parse (str "Book 1:1–5") tbl = .ok ⟨b.OSIS, 1, some ⟨1, some 5⟩⟩ := by
  intro books tbl b hNT hres
  have hinv := NewTable_inv hNT
  rw [resolveBook_eq] at hres
  rw [show NormalizeAlias (str "Book") = str "book" from by decide] at hres
  obtain ⟨hbosis, hbvalid⟩ := hinv _ _ hres
  have hbb := bookValidate_none_inv hbvalid
  have hb2 : tbl.ByOsis b.OSIS = some b := by rw [hbosis]; exact hres
  have hvalid : BibleRef.Validate ⟨b.OSIS, 1, some ⟨1, some 5⟩⟩ tbl = none := by
    unfold BibleRef.Validate
    rw [hb2]
    try simp only []
    rw [if_neg (by omega)]
    try simp only []
    rw [if_neg (by norm_num)]
    try simp only []
    rw [if_neg (by norm_num)]
  have h10 : ∀ v : VerseRange, (some ⟨1, some 5⟩ : Option VerseRange) = some v →
      ¬ v.StartVerse < 1 := by
    rintro v hv; cases hv; decide
  have e9 : parseChapterVerse (str "1:1–5") = .ok ((1 : Int), some ⟨1, some 5⟩) := by
    decide
  constructor
  · have e1 : trimSpaceGo (str "Book 1:1-5") = str "Book 1:1-5" := by decide
    have e2 : ¬ (str "Book 1:1-5" : Str) = [] := by decide
    have e3 : fieldsGo (str "Book 1:1-5") = [str "Book", str "1:1-5"] := by decide
    have e4 : ¬ ([str "Book", str "1:1-5"] : List Str).length < 2 := by decide
    have e5 : NormalizeAlias (joinSp ([str "Book", str "1:1-5"] : List Str).dropLast)
        = str "book" := by decide
    have e6 : parseTail (([str "Book", str "1:1-5"] : List Str).getLastD [])
        = .ok (str "1:1–5") := by decide
    exact Parse_of_parseRefString
      (parseRefString_compute e1 e2 e3 e4 e5 e6 hres e9 h10 hvalid) hvalid
  · have e1 : trimSpaceGo (str "Book 1:1–5") = str "Book 1:1–5" := by decide
    have e2 : ¬ (str "Book 1:1–5" : Str) = [] := by decide
    have e3 : fieldsGo (str "Book 1:1–5") = [str "Book", str "1:1–5"] := by decide
    have e4 : ¬ ([str "Book", str "1:1–5"] : List Str).length < 2 := by decide
    have e5 : NormalizeAlias (joinSp ([str "Book", str "1:1–5"] : List Str).dropLast)
        = str "book" := by decide
    have e6 : parseTail (([str "Book", str "1:1–5"] : List Str).getLastD [])
        = .ok (str "1:1–5") := by decide
    exact Parse_of_parseRefString
      (parseRefString_compute e1 e2 e3 e4 e5 e6 hres e9 h10 hvalid) hvalid

/-- Witness for C4 on the one-book "Book" registry. -/
theorem C4_dash_equivalence_witness :
    Parse (str "Book 1:1-5") bookTbl = .ok ⟨bookBook.OSIS, 1, some ⟨1, some 5⟩⟩ ∧
    Parse (str "Book 1:1–5") bookTbl = .ok ⟨bookBook.OSIS, 1, some ⟨1, some 5⟩⟩ :=
  C4_dash_equivalence [bookBook] bookTbl bookBook rfl (by decide)

/-- C8: a registry built from a book with OSIS "2Kgs" aliased
"ii kings" (and at least 20 chapters) parses "II Kings 20" to entity
"2Kgs", chapter 20: the Roman-numeral prefix "ii " collapses to "2 "
identically at lookup and at construction, with the replacements
applied in the order "iii ", "ii ", "i ". -/
theorem C8_roman_numeral_aliases :
    (∀ (b : Book) (tbl : Table), b.OSIS = str "2Kgs" → str "ii kings" ∈ b.Aliases →
      20 ≤ b.Chapters → NewTable [b] = .ok tbl →
      Parse (str "II Kings 20") tbl = .ok ⟨str "2Kgs", 20, none⟩) ∧
    NormalizeAlias (str "II Kings") = str "2 kings" ∧
    NormalizeAlias (str "ii kings") = str "2 kings" ∧
    NormalizeAlias (str "III John") = str "3 john" ∧
    NormalizeAlias (str "I Sam") = str "1 sam" := by
  refine ⟨?_, by decide, by decide, by decide, by decide⟩
  intro b tbl hosis hmem hch hNT
  obtain ⟨hbv, htbl⟩ := newTable_single_inv hNT
  subst htbl
  have halias : (addBook ⟨fun _ => none, fun _ => none⟩ b).ByAlias (str "2 kings")
      = some (str "2Kgs") := by
    have h := @addBook_alias_of_mem ⟨fun _ => none, fun _ => none⟩ b (str "ii kings") hmem
    rw [show NormalizeAlias (str "ii kings") = str "2 kings" from by decide] at h
    rw [h, hosis]
  have hbyosis : (addBook ⟨fun _ => none, fun _ => none⟩ b).ByOsis (str "2Kgs")
      = some b := by
    show (if (str "2Kgs") = b.OSIS then some b else none) = some b
    rw [if_pos hosis.symm]
  have h7 : (addBook ⟨fun _ => none, fun _ => none⟩ b).ByOsis
      (((addBook ⟨fun _ => none, fun _ => none⟩ b).ByAlias (str "2 kings")).getD
        (str "2 kings")) = some b := by
    rw [halias]
    simpa using hbyosis
  have hbyosis2 : (addBook ⟨fun _ => none, fun _ => none⟩ b).ByOsis b.OSIS = some b := by
    show (if b.OSIS = b.OSIS then some b else none) = some b
    rw [if_pos rfl]
  have hvalid : BibleRef.Validate ⟨b.OSIS, 20, none⟩
      (addBook ⟨fun _ => none, fun _ => none⟩ b) = none := by
    unfold BibleRef.Validate
    rw [hbyosis2]
    simp only []
    rw [if_neg (by omega)]
  have e1 : trimSpaceGo (str "II Kings 20") = str "II Kings 20" := by decide
  have e2 : ¬ (str "II Kings 20" : Str) = [] := by decide
  have e3 : fieldsGo (str "II Kings 20") = [str "II", str "Kings", str "20"] := by decide
  have e4 : ¬ ([str "II", str "Kings", str "20"] : List Str).length < 2 := by decide
  have e5 : NormalizeAlias (joinSp ([str "II", str "Kings", str "20"] : List Str).dropLast)
      = str "2 kings" := by decide
  have e6 : parseTail (([str "II", str "Kings", str "20"] : List Str).getLastD [])
      = .ok (str "20") := by decide
  have e9 : parseChapterVerse (str "20") = .ok ((20 : Int), none) := by decide
  have h10 : ∀ v : VerseRange, (none : Option VerseRange) = some v →
      ¬ v.StartVerse < 1 := by rintro v ⟨⟩
  have hP := Parse_of_parseRefString
    (parseRefString_compute e1 e2 e3 e4 e5 e6 h7 e9 h10 hvalid) hvalid
  rw [hosis] at hP
  exact hP

/-- Witness for C8 on the concrete 2 Kings registry. -/
theorem C8_roman_numeral_aliases_witness :
    Parse (str "II Kings 20") kgsTbl = .ok ⟨str "2Kgs", 20, none⟩ :=
  C8_roman_numeral_aliases.1 book2Kgs kgsTbl (by decide) (by decide) (by decide) rfl

/-- Round-trip core: parsing the canonical two-field string
`osis ++ " " ++ tail` recovers the given reference, provided the head
resolves to its own book and the tail re-parses to the same structure. -/
lemma roundTripCore {tbl : Table} {ro tl : Str} {b : Book} {rc : Int}
    {rv : Option VerseRange}
    (hns : ∀ c ∈ ro, isSpaceGo c = false) (hro : ro ≠ [])
    (htl : tl ≠ []) (htn : ∀ x ∈ tl, isSpaceGo x = false)
    (hpt : parseTail tl = .ok tl)
    (halias : tbl.ByAlias (NormalizeAlias ro) = some ro)
    (hosis : tbl.ByOsis ro = some b) (hbosis : b.OSIS = ro)
    (hcv : parseChapterVerse tl = .ok (rc, rv))
    (h10 : ∀ v, rv = some v → ¬ v.StartVerse < 1)
    (hval : BibleRef.Validate ⟨ro, rc, rv⟩ tbl = none) :
    Parse (ro ++ ' ' :: tl) tbl = .ok ⟨ro, rc, rv⟩ := by
  have h7 : tbl.ByOsis ((tbl.ByAlias (NormalizeAlias ro)).getD (NormalizeAlias ro))
      = some b := by
    rw [halias]
    simpa using hosis
  have h11 : BibleRef.Validate ⟨b.OSIS, rc, rv⟩ tbl = none := by
    rw [hbosis]; exact hval
  have hcmp := parseRefString_compute (trim_pair hro htl hns htn) (by simp)
    (fieldsGo_pair hro htl hns htn) (by simp)
    (by rw [show ([ro, tl] : List Str).dropLast = [ro] from rfl, joinSp_single])
    (by rw [show ([ro, tl] : List Str).getLastD [] = tl from rfl]; exact hpt)
    h7 hcv h10 h11
  rw [hbosis] at hcmp
  exact Parse_of_parseRefString hcmp hval

/-- C1 as stated is false: in `tblC1` book "B" has hijacked the
normalized OSIS key "a" of book "A", so "q 1" parses to "A" but its
canonical rendering "A 1" re-parses to the different book "B". -/
theorem C1_counterexample :
    NewTable booksC1 = .ok tblC1 ∧
    Parse (str "q 1") tblC1 = .ok ⟨str "A", 1, none⟩ ∧
    BibleRef.render ⟨str "A", 1, none⟩ = str "A 1" ∧
    Parse (str "A 1") tblC1 = .ok ⟨str "B", 1, none⟩ ∧
    ¬ (str "B" : Str) = str "A" :=
  ⟨rfl, by decide, by decide, by decide, by decide⟩

/-- C1 amended: round-trip canonical stability holds for every parsed
reference whose OSIS code contains no white-space character and whose
normalized OSIS code maps back to that OSIS code in the alias table —
the two conditions that the alias-collision counterexample violates. -/
theorem C1_round_trip_amended :
    ∀ (books : List Book) (tbl : Table) (s : Str) (r : BibleRef),
      NewTable books = .ok tbl →
      Parse s tbl = .ok r →
      (∀ c ∈ r.OSIS, isSpaceGo c = false) →
      tbl.ByAlias (NormalizeAlias r.OSIS) = some r.OSIS →
      Parse r.render tbl = .ok r := by
  intro books tbl s r hNT hP hns halias
  obtain ⟨hprs, hval⟩ := doParse_ok_inv (Parse_ok_doParse hP)
  obtain ⟨hbound_ch, hbound_v⟩ := parseRefString_ok_bounds hprs
  obtain ⟨b, hb, hch1, hch2, hverse⟩ := Validate_ok_inv hval
  have hinv := NewTable_inv hNT
  obtain ⟨hbosis, hbvalid⟩ := hinv _ _ hb
  have hosis_ne : r.OSIS ≠ [] := hbosis ▸ (bookValidate_none_inv hbvalid).1
  have hchstr : intToStr r.Chapter = natToStr r.Chapter.toNat := by
    unfold intToStr; rw [if_neg (by omega)]
  have hchcast : ((r.Chapter.toNat : Nat) : Int) = r.Chapter :=
    Int.toNat_of_nonneg (by omega)
  have hnb : ((r.Chapter.toNat : Nat) : Int) ≤ 2 ^ 63 - 1 := by omega
  cases hv : r.Verse with
  | none =>
      have hval2 : BibleRef.Validate ⟨r.OSIS, r.Chapter, none⟩ tbl = none := by
        rw [← hv]; exact hval
      have hcv : parseChapterVerse (natToStr r.Chapter.toNat) = .ok (r.Chapter, none) :=
        hchcast ▸ parseChapterVerse_chapter_only hnb
      have hrender : BibleRef.render r = r.OSIS ++ ' ' :: natToStr r.Chapter.toNat := by
        unfold BibleRef.render
        rw [hv, hchstr]
      rw [hrender]
      have hfin := roundTripCore hns hosis_ne (natToStr_ne_nil _) natToStr_nonspace
        (parseTail_all_digits (natToStr_ne_nil _) (fun _ hx => natToStr_digits hx))
        halias hb hbosis hcv (by rintro v ⟨⟩) hval2
      rw [← hv] at hfin
      exact hfin
  | some vr =>
      obtain ⟨sv, ev⟩ := vr
      have hsv1 : 1 ≤ sv := (hverse _ hv).1
      have hsvb : sv ≤ 2 ^ 63 - 1 := (hbound_v _ hv).1
      have hsvstr : intToStr sv = natToStr sv.toNat := by
        unfold intToStr; rw [if_neg (by omega)]
      have hsvcast : ((sv.toNat : Nat) : Int) = sv := Int.toNat_of_nonneg (by omega)
      have hsvnb : ((sv.toNat : Nat) : Int) ≤ 2 ^ 63 - 1 := by omega
      cases ev with
      | none =>
          have hval2 : BibleRef.Validate ⟨r.OSIS, r.Chapter, some ⟨sv, none⟩⟩ tbl
              = none := by
            rw [← hv]; exact hval
          have hcv : parseChapterVerse
              (natToStr r.Chapter.toNat ++ ':' :: natToStr sv.toNat)
              = .ok (r.Chapter, some ⟨sv, none⟩) := by
            have h := parseChapterVerse_single hnb hsvnb
            rw [hchcast, hsvcast] at h
            exact h
          have htl : (natToStr r.Chapter.toNat ++ ':' :: natToStr sv.toNat : Str)
              ≠ [] := by
            simp
          have htn : ∀ x ∈ natToStr r.Chapter.toNat ++ ':' :: natToStr sv.toNat,
              isSpaceGo x = false := by
            intro x hx
            rcases List.mem_append.mp hx with h | h
            · exact natToStr_nonspace x h
            · rcases List.mem_cons.mp h with rfl | h2
              · decide
              · exact natToStr_nonspace x h2
          have hpt : parseTail (natToStr r.Chapter.toNat ++ ':' :: natToStr sv.toNat)
              = .ok (natToStr r.Chapter.toNat ++ ':' :: natToStr sv.toNat) := by
            have h := parseTail_with_verse (natToStr_ne_nil r.Chapter.toNat)
              (fun _ hx => natToStr_digits hx) (natToStr_ne_nil sv.toNat)
            rw [NormalizeVerseRange_natToStr] at h
            exact h
          have hrender : BibleRef.render r
              = r.OSIS ++ ' ' :: (natToStr r.Chapter.toNat ++ ':' :: natToStr sv.toNat) := by
            unfold BibleRef.render VerseRange.render
            rw [hv]
            try simp only []
            rw [hchstr, hsvstr]
            simp [List.append_assoc]
          rw [hrender]
          have hfin := roundTripCore hns hosis_ne htl htn hpt halias hb hbosis hcv
            (by rintro v hv2; cases hv2; show ¬ sv < 1; omega) hval2
          rw [← hv] at hfin
          exact hfin
      | some ev' =>
          have hev1 : sv ≤ ev' := (hverse _ hv).2 ev' rfl
          have hevb : ev' ≤ 2 ^ 63 - 1 := (hbound_v _ hv).2 ev' rfl
          have hevstr : intToStr ev' = natToStr ev'.toNat := by
            unfold intToStr; rw [if_neg (by omega)]
          have hevcast : ((ev'.toNat : Nat) : Int) = ev' := Int.toNat_of_nonneg (by omega)
          have hevnb : ((ev'.toNat : Nat) : Int) ≤ 2 ^ 63 - 1 := by omega
          have hval2 : BibleRef.Validate ⟨r.OSIS, r.Chapter, some ⟨sv, some ev'⟩⟩ tbl
              = none := by
            rw [← hv]; exact hval
          have hcv : parseChapterVerse (natToStr r.Chapter.toNat ++
              ':' :: (natToStr sv.toNat ++ enDash :: natToStr ev'.toNat))
              = .ok (r.Chapter, some ⟨sv, some ev'⟩) := by
            have h := parseChapterVerse_range hnb hsvnb hevnb
            rw [hchcast, hsvcast, hevcast] at h
            exact h
          have htl : (natToStr r.Chapter.toNat ++
              ':' :: (natToStr sv.toNat ++ enDash :: natToStr ev'.toNat) : Str) ≠ [] := by
            simp
          have htn : ∀ x ∈ natToStr r.Chapter.toNat ++
              ':' :: (natToStr sv.toNat ++ enDash :: natToStr ev'.toNat),
              isSpaceGo x = false := by
            intro x hx
            rcases List.mem_append.mp hx with h | h
            · exact natToStr_nonspace x h
            · rcases List.mem_cons.mp h with rfl | h2
              · decide
              · exact rangeStr_nonspace x h2
          have hpt : parseTail (natToStr r.Chapter.toNat ++
              ':' :: (natToStr sv.toNat ++ enDash :: natToStr ev'.toNat))
              = .ok (natToStr r.Chapter.toNat ++
                ':' :: (natToStr sv.toNat ++ enDash :: natToStr ev'.toNat)) := by
            have h := parseTail_with_verse (natToStr_ne_nil r.Chapter.toNat)
              (fun _ hx => natToStr_digits hx)
              (by simp : (natToStr sv.toNat ++ enDash :: natToStr ev'.toNat : Str) ≠ [])
            rw [NormalizeVerseRange_rangeStr] at h
            exact h
          have hrender : BibleRef.render r
              = r.OSIS ++ ' ' :: (natToStr r.Chapter.toNat ++
                ':' :: (natToStr sv.toNat ++ enDash :: natToStr ev'.toNat)) := by
            unfold BibleRef.render VerseRange.render
            rw [hv]
            try simp only []
            rw [hchstr, hsvstr, hevstr]
            simp [List.append_assoc]
          rw [hrender]
          have hfin := roundTripCore hns hosis_ne htl htn hpt halias hb hbosis hcv
            (by rintro v hv2; cases hv2; show ¬ sv < 1; omega) hval2
          rw [← hv] at hfin
          exact hfin

/-- Witness for C1 amended: "Proverbs 31:10-31" against the Proverbs
registry round-trips through "Prov 31:10–31". -/
theorem C1_round_trip_amended_witness :
    Parse (BibleRef.render ⟨str "Prov", 31, some ⟨10, some 31⟩⟩) provTbl
      = .ok ⟨str "Prov", 31, some ⟨10, some 31⟩⟩ :=
  C1_round_trip_amended [bookProv] provTbl (str "Proverbs 31:10-31")
    ⟨str "Prov", 31, some ⟨10, some 31⟩⟩ rfl (by decide) (by decide) (by decide)

example : natToStr 310 = str "310" := by decide
example : replaceAll (str "ii kings") (str "ii ") (str "2 ") = str "2 kings" := by decide
example : splitGo (str "1:10-31") (str ":") = [str "1", str "10-31"] := by decide
example : fieldsGo (str "  Prov  31:10 ") = [str "Prov", str "31:10"] := by decide
example : trimSpaceGo (str "  a b ") = str "a b" := by decide
example : strToNat (str "310") = 310 := by decide
example : NormalizeAlias (str "II Kings") = str "2 kings" := by decide
example : NormalizeAlias (str "  PRO. ") = str "pro" := by decide
example : Atoi (str "31") = .ok 31 := by decide
example : parseTail (str "31:10-31") = .ok (str "31:10–31") := by decide
example : Parse (str "Proverbs 31:10-31") provTbl =
    .ok ⟨str "Prov", 31, some ⟨10, some 31⟩⟩ := by decide
example : Parse (str "Prov 31") provTbl = .ok ⟨str "Prov", 31, none⟩ := by decide
example : BibleRef.render ⟨str "Prov", 31, some ⟨10, some 31⟩⟩ = str "Prov 31:10–31" := by
  decide
example : (Parse (str "Unknown 1:1") provTbl).isOk = false := by decide
example : (Parse (str "Prov 32") provTbl).isOk = false := by decide
example : (Parse (str "Prov 1:20-10") provTbl).isOk = false := by decide
